import Mathlib

/-!
Verification of the TuneGG pitch-to-note mapping and note/sequence matching
core, as a shallow embedding of the repository's TypeScript source.

Embedded source files:
* `src/utils/noteUtils.ts` (note conversion utilities, tuning classifier,
  rolling audio buffer of the `usePitchDetection` hook);
* `src/navigation/screens/games/GameMemory.tsx` (the memorize-then-recall
  melody game: its note matching, hold timer, per-step timeout timer and
  phase state machine);
* the pitch-matching game screen `GamePitch` (octave-insensitive matching).

Conventions of the embedding:
* JS numbers that only ever hold mathematical integers are `ℤ` or `ℕ`;
  genuinely real-valued quantities (frequencies, semitone offsets) are `ℝ`
  (idealized, no floating-point rounding); audio samples are `ℚ`.
* JS `%` on integers is truncated remainder, embedded as `Int.tmod`;
  `Math.floor` of an integer quotient is `Int.fdiv`; `Math.round` is
  Lean's `round` (both are floor of x + 1/2).
* JS array indexing out of range yields `undefined`, embedded as `Option`
  (`jsArrayGet`); `Array.prototype.indexOf` yields -1 on a miss
  (`jsIndexOf`).
* `setTimeout`/`setInterval`/`clearTimeout` are modelled by a host-owned
  list of pending timers with fresh numeric ids; a cleared or already-fired
  timer id is no longer pending, and firing a non-pending id is a no-op,
  exactly as in the JS event loop.  Timer callbacks carry the values they
  close over, mirroring the React closures in the source.
-/

namespace TuneGG

/-! ## JS primitives on integers and arrays -/

/-- JS array read `l[i]`: `undefined` (none) when the index is out of range. -/
def jsArrayGet (l : List String) (i : ℤ) : Option String :=
  if h : 0 ≤ i ∧ i.toNat < l.length then some (l.get ⟨i.toNat, h.2⟩) else none

/-- JS `Array.prototype.indexOf`: index of the first occurrence, -1 on a miss. -/
def jsIndexOf (l : List String) (x : String) : ℤ :=
  if x ∈ l then (l.indexOf x : ℤ) else -1

/-- JS `%` on integers (remainder truncated toward zero). -/
def jsRem (a b : ℤ) : ℤ := a.tmod b

/-! ## Note conversion utilities (`noteUtils.ts`) -/

/-- The 12 pitch-class names, in the fixed order of the source. -/
def NOTE_NAMES : List String :=
  ["C", "C#", "D", "D#", "E", "F"]
    ++ ["F#", "G", "G#", "A", "A#", "B"]

/-- A note as used by `noteUtils.ts` (pitch class only). -/
structure Note where
  name : String
deriving DecidableEq, Repr

/-- A note with octave, as used by `GameMemory.tsx`. -/
structure NoteO where
  name : String
  octave : ℤ
deriving DecidableEq, Repr

/-- The index expression `((s % 12) + 12) % 12` of the source, with JS `%`. -/
def jsNoteIndex (s : ℤ) : ℤ := jsRem (jsRem s 12 + 12) 12

/-- Reference pitch used throughout the source: A4 = 440 Hz. -/
noncomputable def semitonesFromA4 (frequency : ℝ) : ℝ :=
  12 * Real.logb 2 (frequency / 440)

/-- `getNoteFromFreq` of `noteUtils.ts`: nearest pitch-class name for a
frequency, `undefined` for a non-positive frequency.  (The pitch-class index
is provably in range, so the out-of-range arm of `jsArrayGet` is dead.) -/
noncomputable def getNoteFromFreq (frequency : ℝ) : Option Note :=
  if frequency ≤ 0 then none
  else
    let semitonesFromC4 : ℤ := round (semitonesFromA4 frequency + 9)
    let noteIndex : ℤ := jsNoteIndex semitonesFromC4
    match jsArrayGet NOTE_NAMES noteIndex with
    | some nm => some ⟨nm⟩
    | none => none

/-- The octave-resolved `getNoteFromFreq` of `GameMemory.tsx`
(`octave = Math.floor((semitonesFromC4 + 48) / 12)`). -/
noncomputable def getNoteFromFreqOct (frequency : ℝ) : Option NoteO :=
  if frequency ≤ 0 then none
  else
    let semitonesFromC4 : ℤ := round (semitonesFromA4 frequency + 9)
    let octave : ℤ := (semitonesFromC4 + 48).fdiv 12
    let noteIndex : ℤ := jsNoteIndex semitonesFromC4
    match jsArrayGet NOTE_NAMES noteIndex with
    | some nm => some ⟨nm, octave⟩
    | none => none

/-- `getFreqFromNote` of `noteUtils.ts`:
`440 * 2^(((octave - 4) * 12 + (indexOf name - indexOf "A")) / 12)`. -/
noncomputable def getFreqFromNote (note : NoteO) : ℝ :=
  let noteDistance : ℤ := jsIndexOf NOTE_NAMES note.name - jsIndexOf NOTE_NAMES "A"
  let sFromA4 : ℤ := (note.octave - 4) * 12 + noteDistance
  440 * (2 : ℝ) ^ ((sFromA4 : ℝ) / 12)

/-- `getNoteCents` of `noteUtils.ts`: rounded cents deviation from the
nearest equal-temperament semitone; 0 for non-positive frequencies or when
no note resolves. -/
noncomputable def getNoteCents (frequency : ℝ) : ℤ :=
  if frequency ≤ 0 then 0
  else
    match getNoteFromFreq frequency with
    | none => 0
    | some _ =>
      let roundedSemitonesFromA4 : ℤ := round (semitonesFromA4 frequency)
      let nearestNoteFreq : ℝ := 440 * (2 : ℝ) ^ ((roundedSemitonesFromA4 : ℝ) / 12)
      round (1200 * Real.logb 2 (frequency / nearestNoteFreq))

/-- `noteToMIDI` of `noteUtils.ts`: `(octave + 1) * 12 + indexOf noteName`. -/
def noteToMIDI (noteName : String) (octave : ℤ) : ℤ :=
  (octave + 1) * 12 + jsIndexOf NOTE_NAMES noteName

/-- Result of `MIDIToNote`: in JS the `name` field is `undefined` when the
pitch-class index is out of array range (negative JS `%` result). -/
structure MIDINoteResult where
  name : Option String
  octave : ℤ
deriving DecidableEq, Repr

/-- `MIDIToNote` of `noteUtils.ts`:
`octave = Math.floor(midi / 12) - 1`, `name = NOTE_NAMES[midi % 12]`. -/
def MIDIToNote (midiNote : ℤ) : MIDINoteResult :=
  { octave := midiNote.fdiv 12 - 1
    name := jsArrayGet NOTE_NAMES (jsRem midiNote 12) }

/-- Tuning status object of `getTuningStatus` in `noteUtils.ts`. -/
structure TuningStatus where
  status : String
  text : String
  color : String
deriving DecidableEq, Repr

/-- `getTuningStatus` of `noteUtils.ts` (display tolerance 10 cents). -/
def getTuningStatus (cents : ℤ) : TuningStatus :=
  let tolerance : ℤ := 10
  if |cents| ≤ tolerance then ⟨"in-tune", "in tune", "#4CAF50"⟩
  else if cents > tolerance then ⟨"sharp", "sharp", "#FF9800"⟩
  else ⟨"flat", "flat", "#2196F3"⟩

/-! ## Rolling audio sample window (`usePitchDetection` in `noteUtils.ts`) -/

/-- `BUF_SIZE` of the source: capacity of the rolling audio buffer. -/
def BUF_SIZE : ℕ := 9000

/-- Initial audio buffer: `new Array(bufferSize).fill(0)`. -/
def initialAudioBuffer : List ℚ := List.replicate BUF_SIZE 0

/-- The `onAudioBuffer` listener update
`prevBuffer => [...prevBuffer.slice(len), ...buffer.samples]`:
drop the oldest `chunk.length` samples, append the chunk at the tail. -/
def appendAudioChunk (prevBuffer chunk : List ℚ) : List ℚ :=
  prevBuffer.drop chunk.length ++ chunk

/-! ## The pitch-matching game (`GamePitch`)

In `GamePitch` the detected note type has no octave field at all, the target
notes carry an octave (C3..B5), and `notesMatch` compares only the names.
Detections are delivered to the match `useEffect` as (note, cents) pairs;
the DSP frequency estimator and `getNoteFromFreq` that produce them are
external to this state machine. -/

/-- Detected note of `GamePitch`: pitch-class name only. -/
structure GPNote where
  name : String
deriving DecidableEq, Repr

/-- `notesMatch` of `GamePitch`: name equality only, false if either side
is `undefined`.  The octave of the target is never consulted. -/
def gpNotesMatch (note1 : Option GPNote) (note2 : Option NoteO) : Bool :=
  match note1, note2 with
  | some n1, some n2 => n1.name == n2.name
  | _, _ => false

/-- Game phase of `GamePitch`. -/
inductive GPPhase
  | ready
  | playing
  | completed
deriving DecidableEq, Repr

/-- Component state of `GamePitch` relevant to matching. -/
structure GPState where
  isRecording : Bool
  gameState : GPPhase
  targetNotes : List NoteO
  currentNoteIndex : ℕ
  score : ℤ
  matchedNotes : List Bool
  xpAwarded : Bool
  detectedNote : Option GPNote
  cents : ℤ
deriving DecidableEq, Repr

/-- `stopRecording` of `GamePitch` (subscriber cleanup is external). -/
def gpStopRecording (s : GPState) : GPState :=
  if s.isRecording then { s with isRecording := false } else s

/-- The match `useEffect` of `GamePitch`: accepts the current step iff the
detected name equals the target name and `|cents| ≤ 20`; on acceptance marks
the step, increments the score and either advances or completes the game. -/
def gpMatchEffect (s : GPState) : GPState :=
  if s.gameState ≠ .playing then s
  else
    match s.detectedNote with
    | none => s
    | some dn =>
      if s.targetNotes.length ≤ s.currentNoteIndex then s
      else
        let targetNote := s.targetNotes.getD s.currentNoteIndex ⟨"C", 0⟩
        let isMatch := gpNotesMatch (some dn) (some targetNote)
        let isInTune := decide (|s.cents| ≤ 20)
        if isMatch && isInTune then
          let s1 := { s with
            matchedNotes := s.matchedNotes.set s.currentNoteIndex true,
            score := s.score + 1 }
          if s1.targetNotes.length ≤ s1.currentNoteIndex + 1 then
            let s2 := gpStopRecording { s1 with gameState := .completed }
            if s.score + 1 == 5 && !s.xpAwarded then
              { s2 with xpAwarded := true }
            else s2
          else { s1 with currentNoteIndex := s1.currentNoteIndex + 1 }
        else s

/-- One detection delivered while `GamePitch` records: the pitch effect
stores the converted note and cents, then the match effect runs. -/
def gpDetect (s : GPState) (n : Option GPNote) (c : ℤ) : GPState :=
  if s.isRecording then gpMatchEffect { s with detectedNote := n, cents := c }
  else s

/-! ## The memorize-then-recall game (`GameMemory.tsx`)

The component is embedded as an event-driven state machine.  Events are
button presses, detections (note and cents as produced by the external
frequency estimator plus NoteMapper) and timer firings.  Timers
(`setTimeout`/`setInterval`) live in a host-owned pending list with fresh
numeric ids; `clearTimeout` removes an id; firing an id not in the list is a
no-op (the JS runtime never runs a cleared or already-fired callback).  The
hold-timer callback captures the React state of the render that scheduled
it (`HoldData`), exactly as the closure in the source does.  After every
state commit the recall-matching `useEffect` re-runs (its dependency list
covers every state field it reads), which the model reflects by running
`matchEffect` after each event that commits state.  Microphone permission
is assumed granted; XP award, alerts and animations are external side
effects with no bearing on the match state. -/

/-- Game configuration constants of `GameMemory.tsx`. -/
def INITIAL_SEQUENCE_LENGTH : ℤ := 3

def MAX_SEQUENCE_LENGTH : ℤ := 8

def MEMORY_TIME_BASE : ℤ := 5000

def MEMORY_TIME_DECREASE : ℤ := 300

def MIN_MEMORY_TIME : ℤ := 2000

def PITCH_TOLERANCE : ℤ := 20

def NOTE_TIMEOUT : ℤ := 10000

/-- `GamePhase` of `GameMemory.tsx`. -/
inductive GamePhase
  | setup
  | memorize
  | recall
  | completed
  | roundComplete
  | failed
deriving DecidableEq, Repr

/-- The game note range C4..B5 (`GAME_NOTES`). -/
def GAME_NOTES : List NoteO :=
  ((List.range 2).map fun oIdx => NOTE_NAMES.map fun nm =>
    NoteO.mk nm (4 + (oIdx : ℤ))).flatten

/-- `notesMatch` of `GameMemory.tsx`: name, octave and cents within
tolerance; false when no note was detected. -/
def notesMatch (detectedNote : Option NoteO) (targetNote : NoteO) (cents : ℤ) :
    Bool :=
  match detectedNote with
  | none => false
  | some d =>
      d.name == targetNote.name && d.octave == targetNote.octave
        && decide (|cents| ≤ PITCH_TOLERANCE)

/-- `getMemoryTime`: display time for the memorize phase of a round. -/
def getMemoryTime (round : ℤ) : ℤ :=
  max (MEMORY_TIME_BASE - (round - 1) * MEMORY_TIME_DECREASE) MIN_MEMORY_TIME

/-- `getSequenceLength`: melody length for a round. -/
def getSequenceLength (round : ℤ) : ℤ :=
  min (INITIAL_SEQUENCE_LENGTH + (round - 1).fdiv 2) MAX_SEQUENCE_LENGTH

/-- Values captured by the hold-timer closure when it is scheduled (the
recall `useEffect` closes over the state of its render). -/
structure HoldData where
  detected : NoteO
  playerSequence : List NoteO
  score : ℤ
  currentNoteIndex : ℕ
  melody : List NoteO
  totalScore : ℤ
  xpAwarded : Bool
  isRecording : Bool
deriving DecidableEq, Repr

/-- The three kinds of scheduled callbacks in `GameMemory.tsx`.  A
`noteTimeout` records the step index it was scheduled for and the
`isRecording` of the render whose `stopRecording` closure it will call
(both captured when it is scheduled); `memoryTick` is the 1-second
interval of the memorize countdown, whose closure holds the
`startRecording`/`stopRecording` of the render that called `startGame`,
so it too carries that render's captured `isRecording`. -/
inductive TimerKind
  | hold (d : HoldData)
  | noteTimeout (step : ℕ) (capturedRec : Bool)
  | memoryTick (capturedRec : Bool)
deriving DecidableEq, Repr

/-- A scheduled timer: host id plus callback. -/
structure Timer where
  id : ℕ
  kind : TimerKind
deriving DecidableEq, Repr

/-- Component state of `GameMemory`, together with the host timer queue
(`pending`, with `nextId` the next fresh timer id) and the three timer refs
of the source. -/
structure GMState where
  isRecording : Bool
  gamePhase : GamePhase
  currentRound : ℤ
  currentSequenceLength : ℤ
  melodySequence : List NoteO
  currentNoteIndex : ℕ
  playerSequence : List NoteO
  score : ℤ
  totalScore : ℤ
  memoryTimeLeft : ℤ
  xpAwarded : Bool
  detectedNote : Option NoteO
  cents : ℤ
  pending : List Timer
  nextId : ℕ
  memoryTimerRef : Option ℕ
  noteHoldTimerRef : Option ℕ
  noteTimeoutTimerRef : Option ℕ
deriving DecidableEq, Repr

/-- `clearTimeout`/`clearInterval`: remove a timer id from the host queue. -/
def clearTimer (p : List Timer) (x : ℕ) : List Timer :=
  p.filter fun t => !(t.id == x)

/-- The source pattern `if (ref.current) clearTimeout(ref.current)`. -/
def clearRef (p : List Timer) (r : Option ℕ) : List Timer :=
  match r with
  | some x => clearTimer p x
  | none => p

/-- `stopRecording` of `GameMemory.tsx`: stop capture if recording, then
unconditionally clear and null the note-timeout timer ref.  The hold timer
ref is NOT cleared here (faithful to the source).  `stopRecording` is a
closure: its `if (isRecording)` guard reads the `isRecording` of the
render that created it, passed here as `capturedRec` (a call from a fresh
press handler passes the current value; the per-step timeout scheduled in
`startRecording` holds the scheduling render's stale closure, whose
captured value can differ from the current state).  The ref, being stable
across renders, is read and cleared against the current state. -/
def stopRecording (capturedRec : Bool) (s : GMState) : GMState :=
  let s1 := if capturedRec then { s with isRecording := false } else s
  match s1.noteTimeoutTimerRef with
  | some x =>
      { s1 with pending := clearTimer s1.pending x, noteTimeoutTimerRef := none }
  | none => s1

/-- `startRecording` of `GameMemory.tsx` (permission granted): start
capture and schedule the per-step timeout for the current note.  The
timeout's callback calls the `stopRecording` of the render that provided
this `startRecording` closure; `capturedRec` is that render's
`isRecording`, stored in the timer. -/
def startRecordingFn (capturedRec : Bool) (s : GMState) : GMState :=
  let s1 := { s with isRecording := true }
  { s1 with
    pending := ⟨s1.nextId, .noteTimeout s1.currentNoteIndex capturedRec⟩
      :: s1.pending,
    noteTimeoutTimerRef := some s1.nextId,
    nextId := s1.nextId + 1 }

/-- The recall-phase matching `useEffect` of `GameMemory.tsx` (lines
214-278): on a matching detection clear the hold and timeout timers (refs
not nulled) and schedule a fresh 500 ms hold timer capturing the current
render's state; on a present but mismatching detection clear and null the
hold timer; when no note is detected, or outside recall, or past the end of
the melody, do nothing. -/
def matchEffect (s : GMState) : GMState :=
  if s.gamePhase ≠ .recall then s
  else
    match s.detectedNote with
    | none => s
    | some dn =>
      if s.melodySequence.length ≤ s.currentNoteIndex then s
      else
        let targetNote := s.melodySequence.getD s.currentNoteIndex ⟨"C", 0⟩
        if notesMatch (some dn) targetNote s.cents then
          let p1 := clearRef s.pending s.noteHoldTimerRef
          let p2 := clearRef p1 s.noteTimeoutTimerRef
          let d : HoldData :=
            ⟨dn, s.playerSequence, s.score, s.currentNoteIndex,
              s.melodySequence, s.totalScore, s.xpAwarded, s.isRecording⟩
          { s with
            pending := ⟨s.nextId, .hold d⟩ :: p2,
            noteHoldTimerRef := some s.nextId,
            nextId := s.nextId + 1 }
        else
          match s.noteHoldTimerRef with
          | some x =>
              { s with pending := clearTimer s.pending x
                       noteHoldTimerRef := none }
          | none => s

/-- The hold-timer callback (scheduled in the matching branch of the recall
effect): append the captured detection, bump the score; on the last step
record the total, complete the round, call the effect render's
`stopRecording` closure (captured `isRecording` is `d.isRecording`) and
mark XP awarded; otherwise advance the step and schedule its timeout,
which carries the same captured `isRecording`. -/
def holdCallback (d : HoldData) (s : GMState) : GMState :=
  let s1 := { s with
    playerSequence := d.playerSequence ++ [d.detected],
    score := d.score + 1 }
  if d.melody.length ≤ d.currentNoteIndex + 1 then
    let s2 := { s1 with
      totalScore := d.totalScore + d.score + 1,
      gamePhase := .roundComplete }
    let s3 := stopRecording d.isRecording s2
    if d.xpAwarded then s3 else { s3 with xpAwarded := true }
  else
    let s2 := { s1 with currentNoteIndex := d.currentNoteIndex + 1 }
    { s2 with
      pending := ⟨s2.nextId, .noteTimeout (d.currentNoteIndex + 1) d.isRecording⟩
        :: s2.pending,
      noteTimeoutTimerRef := some s2.nextId,
      nextId := s2.nextId + 1 }

/-- The per-step timeout callback: fail the session and call the
scheduling render's `stopRecording` closure, whose captured `isRecording`
is `capturedRec` — when that captured value is `false` (the timeout
scheduled through the memorize countdown's `startRecording`), capture is
NOT stopped and `isRecording` stays as it is. -/
def timeoutCallback (capturedRec : Bool) (s : GMState) : GMState :=
  stopRecording capturedRec { s with gamePhase := .failed }

/-- The memorize-countdown interval callback: count down by one second;
at one second or less, clear the interval (ref not nulled), enter recall
and start recording.  The `startRecording` it calls is the closure of the
render that ran `startGame`; `capturedRec` is that render's `isRecording`
(carried by the interval timer) and goes into the timeout that
`startRecording` schedules.  The source stores the remaining time in seconds
(`getMemoryTime(round) / 1000`, a number with denominator dividing 1000);
here it is kept exactly, scaled to integer milliseconds, so the test
`prev ≤ 1` becomes `prev ≤ 1000` and `prev - 1` becomes `prev - 1000`. -/
def memoryTickCallback (capturedRec : Bool) (s : GMState) : GMState :=
  if s.memoryTimeLeft ≤ 1000 then
    let p := clearRef s.pending s.memoryTimerRef
    startRecordingFn capturedRec
      { s with pending := p, gamePhase := .recall, memoryTimeLeft := 0 }
  else { s with memoryTimeLeft := s.memoryTimeLeft - 1000 }

/-- `startGame` of `GameMemory.tsx`, with the generated melody passed in
and `round` the value of `currentRound` captured by the calling closure
(`nextRound` calls `startGame` before React commits the round increment,
so the stale value is used there). -/
def startGameCore (round : ℤ) (seq : List NoteO) (s : GMState) : GMState :=
  let s1 := { s with
    melodySequence := seq,
    currentSequenceLength := getSequenceLength round,
    currentNoteIndex := 0,
    playerSequence := [],
    score := 0,
    xpAwarded := false,
    memoryTimeLeft := getMemoryTime round,
    gamePhase := .memorize }
  { s1 with
    pending := ⟨s1.nextId, .memoryTick s.isRecording⟩ :: s1.pending,
    memoryTimerRef := some s1.nextId,
    nextId := s1.nextId + 1 }

/-- `resetGame` of `GameMemory.tsx`: stop recording, clear every timer
(interval and hold refs are not nulled, faithful to the source), reset all
game state to round 1 setup. -/
def resetGameFn (s : GMState) : GMState :=
  let s1 := stopRecording s.isRecording s
  let s2 := { s1 with pending := clearRef s1.pending s1.memoryTimerRef }
  let s3 := { s2 with pending := clearRef s2.pending s2.noteHoldTimerRef }
  let s4 := { s3 with pending := clearRef s3.pending s3.noteTimeoutTimerRef }
  { s4 with
    gamePhase := .setup,
    currentRound := 1,
    currentSequenceLength := INITIAL_SEQUENCE_LENGTH,
    melodySequence := [],
    playerSequence := [],
    currentNoteIndex := 0,
    score := 0,
    totalScore := 0,
    xpAwarded := false,
    memoryTimeLeft := 0 }

/-- Events driving the `GameMemory` state machine. -/
inductive GMEvent
  | pressStart (seq : List NoteO)
  | pressNextRound (seq : List NoteO)
  | pressStop
  | detect (note : Option NoteO) (cents : ℤ)
  | fire (id : ℕ)
deriving DecidableEq, Repr

/-- One event step of the `GameMemory` machine.  Button presses are guarded
by the phase in which their button is rendered; `detect` is only delivered
while recording (the pitch effect requires `isRecording`); `fire id` runs
the pending callback with that id, or is a no-op if no such timer is
pending (cleared or already fired).  `setTimeout` timers are consumed when
they fire; the `setInterval` memorize tick stays pending until cleared.
After each commit the recall effect runs (`matchEffect`). -/
def stepEv (s : GMState) (e : GMEvent) : GMState :=
  match e with
  | .pressStart seq =>
      if s.gamePhase = .setup
          ∧ seq.length = (getSequenceLength s.currentRound).toNat
          ∧ ∀ n ∈ seq, n ∈ GAME_NOTES then
        matchEffect (startGameCore s.currentRound seq s)
      else s
  | .pressNextRound seq =>
      if s.gamePhase = .roundComplete
          ∧ seq.length = (getSequenceLength s.currentRound).toNat
          ∧ ∀ n ∈ seq, n ∈ GAME_NOTES then
        matchEffect (startGameCore s.currentRound seq
          { s with currentRound := s.currentRound + 1, gamePhase := .setup })
      else s
  | .pressStop => matchEffect (resetGameFn s)
  | .detect n c =>
      if s.isRecording then matchEffect { s with detectedNote := n, cents := c }
      else s
  | .fire x =>
      match s.pending.find? (fun t => t.id == x) with
      | none => s
      | some t =>
        match t.kind with
        | .hold d =>
            matchEffect (holdCallback d { s with pending := clearTimer s.pending x })
        | .noteTimeout _ b =>
            matchEffect (timeoutCallback b
              { s with pending := clearTimer s.pending x })
        | .memoryTick b => matchEffect (memoryTickCallback b s)

/-- The initial (mounted, permission granted) state of `GameMemory`. -/
def initState : GMState :=
  { isRecording := false
    gamePhase := .setup
    currentRound := 1
    currentSequenceLength := INITIAL_SEQUENCE_LENGTH
    melodySequence := []
    currentNoteIndex := 0
    playerSequence := []
    score := 0
    totalScore := 0
    memoryTimeLeft := 0
    xpAwarded := false
    detectedNote := none
    cents := 0
    pending := []
    nextId := 0
    memoryTimerRef := none
    noteHoldTimerRef := none
    noteTimeoutTimerRef := none }

/-- Run a list of events from a state. -/
def run (s : GMState) (evs : List GMEvent) : GMState :=
  evs.foldl stepEv s

/-- States reachable from the initial state. -/
inductive Reachable : GMState → Prop
  | init : Reachable initState
  | step (s : GMState) (e : GMEvent) : Reachable s → Reachable (stepEv s e)

/-! ## Invariant of the `GameMemory` machine -/

/-- The captured hold data equals the current state (no stale closure while
the hold timer is pending). -/
def CapturedOk (d : HoldData) (s : GMState) : Prop :=
  d.playerSequence = s.playerSequence ∧ d.score = s.score
    ∧ d.currentNoteIndex = s.currentNoteIndex ∧ d.melody = s.melodySequence
    ∧ d.totalScore = s.totalScore ∧ d.xpAwarded = s.xpAwarded

/-- At most one timer is ever pending, its kind is determined by the phase,
its id is held by its ref, and a pending hold captures the current state. -/
def PendingShape (s : GMState) : Prop :=
  s.pending = []
  ∨ (∃ i d, s.pending = [⟨i, .hold d⟩] ∧ s.gamePhase = .recall
      ∧ s.noteHoldTimerRef = some i ∧ CapturedOk d s)
  ∨ (∃ i b, s.pending = [⟨i, .noteTimeout s.currentNoteIndex b⟩]
      ∧ s.gamePhase = .recall ∧ s.noteTimeoutTimerRef = some i)
  ∨ (∃ i b, s.pending = [⟨i, .memoryTick b⟩] ∧ s.gamePhase = .memorize
      ∧ s.memoryTimerRef = some i)

/-- Every timer ref holds an id below the allocation counter. -/
def RefsLt (s : GMState) : Prop :=
  (∀ x, s.noteHoldTimerRef = some x → x < s.nextId)
  ∧ (∀ x, s.noteTimeoutTimerRef = some x → x < s.nextId)
  ∧ (∀ x, s.memoryTimerRef = some x → x < s.nextId)

/-- Distinct refs never hold the same id (ids are allocated once). -/
def RefsDistinct (s : GMState) : Prop :=
  (∀ x y, s.noteHoldTimerRef = some x → s.noteTimeoutTimerRef = some y → x ≠ y)
  ∧ (∀ x y, s.noteHoldTimerRef = some x → s.memoryTimerRef = some y → x ≠ y)
  ∧ (∀ x y, s.noteTimeoutTimerRef = some x → s.memoryTimerRef = some y → x ≠ y)

/-- The inductive invariant of the `GameMemory` machine. -/
def Inv (s : GMState) : Prop :=
  RefsLt s ∧ RefsDistinct s ∧ PendingShape s

/-- The step a pending one-shot timer belongs to: the step whose detection
scheduled a hold, or the step a timeout guards. -/
def Timer.stepOf : Timer → ℕ
  | ⟨_, .hold d⟩ => d.currentNoteIndex
  | ⟨_, .noteTimeout n _⟩ => n
  | ⟨_, .memoryTick _⟩ => 0

/-- Whether a timer is a hold or per-step timeout timer. -/
def Timer.isStepTimer : Timer → Prop
  | ⟨_, .hold _⟩ => True
  | ⟨_, .noteTimeout _ _⟩ => True
  | ⟨_, .memoryTick _⟩ => False

/-- Ids of the pending timers. -/
def pendingIds (s : GMState) : List ℕ := s.pending.map Timer.id

/-- Event list that solves the remaining steps of a recall session: for
each remaining step, one matching detection (which schedules a hold with
the then-fresh id) followed by the firing of that hold timer. -/
def solveFrom (s : GMState) : ℕ → List GMEvent
  | 0 => []
  | fuel + 1 =>
    match s.melodySequence.get? s.currentNoteIndex with
    | none => []
    | some target =>
      .detect (some target) 0 :: .fire s.nextId ::
        solveFrom (stepEv (stepEv s (.detect (some target) 0)) (.fire s.nextId)) fuel

/-! ## Lemmas about the JS primitives -/

lemma jsArrayGet_of_lt (l : List String) (j : ℕ) (h : j < l.length) :
    jsArrayGet l (j : ℤ) = some (l.get ⟨j, h⟩) := by
  unfold jsArrayGet
  rw [dif_pos]
  · simp
  · constructor
    · exact Int.ofNat_nonneg j
    · simpa using h

lemma jsRem_nonneg_eq_emod (a b : ℤ) (ha : 0 ≤ a) (hb : 0 < b) :
    jsRem a b = a % b := by
  unfold jsRem
  exact Int.tmod_eq_emod ha (le_of_lt hb)

lemma jsRem_twelve_bounds (s : ℤ) : -12 < jsRem s 12 ∧ jsRem s 12 < 12 := by
  unfold jsRem
  have h2 : s.tmod 12 < 12 := Int.tmod_lt_of_pos s (by norm_num)
  have hneg : (-s).tmod 12 = -(s.tmod 12) := by
    rw [Int.tmod_def, Int.tmod_def, Int.neg_tdiv]
    ring
  have h3 : (-s).tmod 12 < 12 := Int.tmod_lt_of_pos (-s) (by norm_num)
  rcases le_or_lt 0 s with hs | hs
  · have := Int.tmod_nonneg (a := s) 12 hs
    omega
  · have := Int.tmod_nonneg (a := -s) 12 (by omega)
    omega

lemma jsNoteIndex_eq_emod (s : ℤ) : jsNoteIndex s = s % 12 := by
  unfold jsNoteIndex
  obtain ⟨h3, h2⟩ := jsRem_twelve_bounds s
  have h1 : 12 * s.tdiv 12 + s.tmod 12 = s := Int.tdiv_add_tmod s 12
  have h4 : jsRem (jsRem s 12 + 12) 12 = (jsRem s 12 + 12) % 12 :=
    jsRem_nonneg_eq_emod _ 12 (by omega) (by norm_num)
  rw [h4]
  simp only [jsRem] at *
  omega

lemma jsNoteIndex_range (s : ℤ) : 0 ≤ jsNoteIndex s ∧ jsNoteIndex s < 12 := by
  rw [jsNoteIndex_eq_emod]
  exact ⟨Int.emod_nonneg s (by norm_num), Int.emod_lt_of_pos s (by norm_num)⟩

lemma jsNoteIndex_of_shape (m i : ℤ) (h2 : 0 ≤ i) (h3 : i < 12) :
    jsNoteIndex (12 * m + i) = i := by
  rw [jsNoteIndex_eq_emod]
  omega

lemma jsIndexOf_get : ∀ j : Fin NOTE_NAMES.length,
    jsIndexOf NOTE_NAMES (NOTE_NAMES.get j) = (j : ℤ) := by decide

/-! ## Timer-queue and effect lemmas for the `GameMemory` machine -/

lemma mem_clearTimer (p : List Timer) (x : ℕ) (t : Timer) :
    t ∈ clearTimer p x ↔ t ∈ p ∧ t.id ≠ x := by
  unfold clearTimer
  simp [List.mem_filter]

lemma clearTimer_nil (x : ℕ) : clearTimer [] x = [] := rfl

lemma clearTimer_singleton_self (i : ℕ) (k : TimerKind) :
    clearTimer [⟨i, k⟩] i = [] := by
  simp [clearTimer]

lemma clearTimer_singleton_ne (i x : ℕ) (k : TimerKind) (h : i ≠ x) :
    clearTimer [⟨i, k⟩] x = [⟨i, k⟩] := by
  simp [clearTimer, h]

lemma clearRef_nil (r : Option ℕ) : clearRef [] r = [] := by
  cases r <;> rfl

lemma clearRef_none (p : List Timer) : clearRef p none = p := rfl

lemma clearRef_singleton_self (i : ℕ) (k : TimerKind) :
    clearRef [⟨i, k⟩] (some i) = [] := by
  simp [clearRef, clearTimer_singleton_self]

lemma clearRef_singleton_ne (i x : ℕ) (k : TimerKind) (h : i ≠ x) :
    clearRef [⟨i, k⟩] (some x) = [⟨i, k⟩] := by
  simp [clearRef, clearTimer_singleton_ne _ _ _ h]

lemma matchEffect_not_recall (s : GMState) (h : s.gamePhase ≠ .recall) :
    matchEffect s = s := by
  unfold matchEffect
  rw [if_pos h]

lemma matchEffect_proj (s : GMState) :
    (matchEffect s).gamePhase = s.gamePhase
    ∧ (matchEffect s).currentNoteIndex = s.currentNoteIndex
    ∧ (matchEffect s).melodySequence = s.melodySequence
    ∧ (matchEffect s).isRecording = s.isRecording
    ∧ (matchEffect s).playerSequence = s.playerSequence
    ∧ (matchEffect s).score = s.score
    ∧ (matchEffect s).totalScore = s.totalScore
    ∧ (matchEffect s).xpAwarded = s.xpAwarded
    ∧ (matchEffect s).detectedNote = s.detectedNote
    ∧ (matchEffect s).cents = s.cents
    ∧ (matchEffect s).memoryTimeLeft = s.memoryTimeLeft
    ∧ (matchEffect s).currentRound = s.currentRound
    ∧ (matchEffect s).noteTimeoutTimerRef = s.noteTimeoutTimerRef
    ∧ (matchEffect s).memoryTimerRef = s.memoryTimerRef
    ∧ s.nextId ≤ (matchEffect s).nextId := by
  unfold matchEffect
  dsimp only
  split
  · simp
  · split
    · simp
    · split
      · simp
      · split
        · simp [Nat.le_succ]
        · split <;> simp

lemma stopRecording_eq (b : Bool) (s : GMState) :
    stopRecording b s = { s with
      isRecording := !b && s.isRecording,
      pending := clearRef s.pending s.noteTimeoutTimerRef,
      noteTimeoutTimerRef := none } := by
  obtain ⟨rec, ph, rnd, csl, mel, idx, ps, sc, ts, mtl, xp, dn, cn, pend, nid,
    mref, href, tref⟩ := s
  unfold stopRecording clearRef
  cases b <;> dsimp only <;> split <;> simp_all

lemma pending_nil_of_phase (s : GMState) (h : Inv s)
    (h1 : s.gamePhase ≠ .recall) (h2 : s.gamePhase ≠ .memorize) :
    s.pending = [] := by
  obtain ⟨-, -, hshape⟩ := h
  rcases hshape with h0 | ⟨i, d, hp, hr, -⟩ | ⟨i, b, hp, hr, -⟩ | ⟨i, b, hp, hr, -⟩
  · exact h0
  · exact absurd hr h1
  · exact absurd hr h1
  · exact absurd hr h2

lemma clearRef_refs_nil (s : GMState) (hInv : Inv s) (hph : s.gamePhase = .recall) :
    clearRef (clearRef s.pending s.noteHoldTimerRef) s.noteTimeoutTimerRef = [] := by
  obtain ⟨hlt, hdist, hshape⟩ := hInv
  rcases hshape with h0 | ⟨i, d, hp, -, hhr, -⟩ | ⟨i, b, hp, -, htr⟩
    | ⟨i, b, hp, hmem, -⟩
  · rw [h0, clearRef_nil, clearRef_nil]
  · rw [hp, hhr]
    show clearRef (clearTimer [⟨i, .hold d⟩] i) s.noteTimeoutTimerRef = []
    rw [clearTimer_singleton_self, clearRef_nil]
  · rw [hp, htr]
    cases hhr : s.noteHoldTimerRef with
    | none => simp [clearRef, clearTimer_singleton_self]
    | some y =>
        have hne : y ≠ i := hdist.1 y i hhr htr
        simp [clearRef, clearTimer_singleton_ne _ _ _ (Ne.symm hne),
          clearTimer_singleton_self]
  · rw [hph] at hmem
    exact absurd hmem (by decide)

lemma matchEffect_match_eq (s : GMState) (dn : NoteO)
    (hInv : Inv s)
    (hph : s.gamePhase = .recall)
    (hdn : s.detectedNote = some dn)
    (hidx : s.currentNoteIndex < s.melodySequence.length)
    (hm : notesMatch (some dn) (s.melodySequence.getD s.currentNoteIndex ⟨"C", 0⟩)
        s.cents = true) :
    matchEffect s = { s with
      pending := [⟨s.nextId, .hold ⟨dn, s.playerSequence, s.score,
        s.currentNoteIndex, s.melodySequence, s.totalScore, s.xpAwarded,
        s.isRecording⟩⟩],
      noteHoldTimerRef := some s.nextId,
      nextId := s.nextId + 1 } := by
  unfold matchEffect
  rw [if_neg (by simp [hph])]
  simp only [hdn]
  rw [if_neg (not_le.2 hidx), if_pos hm, clearRef_refs_nil s hInv hph]

lemma matchEffect_mismatch_noHold (s : GMState) (dn : NoteO)
    (hInv : Inv s)
    (hph : s.gamePhase = .recall)
    (hdn : s.detectedNote = some dn)
    (hidx : s.currentNoteIndex < s.melodySequence.length)
    (hm : notesMatch (some dn) (s.melodySequence.getD s.currentNoteIndex ⟨"C", 0⟩)
        s.cents = false) :
    ∀ t ∈ (matchEffect s).pending, ∀ d, t.kind ≠ .hold d := by
  obtain ⟨hlt, hdist, hshape⟩ := hInv
  unfold matchEffect
  rw [if_neg (by simp [hph])]
  simp only [hdn]
  rw [if_neg (not_le.2 hidx), if_neg (by rw [hm]; decide)]
  cases hhr : s.noteHoldTimerRef with
  | some x =>
      intro t ht d hk
      have ht2 : t ∈ clearTimer s.pending x := ht
      rw [mem_clearTimer] at ht2
      obtain ⟨htp, htne⟩ := ht2
      rcases hshape with h0 | ⟨i, d0, hp, -, hhr2, -⟩ | ⟨i, b, hp, -, -⟩
        | ⟨i, b, hp, -, -⟩
      · rw [h0] at htp
        exact absurd htp (List.not_mem_nil t)
      · rw [hp] at htp
        have ht' : t = ⟨i, .hold d0⟩ := by simpa using htp
        have hx : x = i := by
          rw [hhr] at hhr2
          exact Option.some.inj hhr2
        rw [ht'] at htne
        exact htne (by rw [hx])
      · rw [hp] at htp
        have ht' : t = ⟨i, .noteTimeout s.currentNoteIndex b⟩ := by simpa using htp
        rw [ht'] at hk
        exact absurd hk (by simp)
      · rw [hp] at htp
        have ht' : t = ⟨i, .memoryTick b⟩ := by simpa using htp
        rw [ht'] at hk
        exact absurd hk (by simp)
  | none =>
      intro t ht d hk
      rcases hshape with h0 | ⟨i, d0, hp, -, hhr2, -⟩ | ⟨i, b, hp, -, -⟩
        | ⟨i, b, hp, -, -⟩
      · rw [h0] at ht
        exact absurd ht (List.not_mem_nil t)
      · rw [hhr] at hhr2
        exact Option.noConfusion hhr2
      · rw [hp] at ht
        have ht' : t = ⟨i, .noteTimeout s.currentNoteIndex b⟩ := by simpa using ht
        rw [ht'] at hk
        exact absurd hk (by simp)
      · rw [hp] at ht
        have ht' : t = ⟨i, .memoryTick b⟩ := by simpa using ht
        rw [ht'] at hk
        exact absurd hk (by simp)

lemma inv_matchEffect (s : GMState) (hInv : Inv s) : Inv (matchEffect s) := by
  by_cases hph : s.gamePhase = .recall
  case neg =>
    rw [matchEffect_not_recall s hph]
    exact hInv
  case pos =>
    cases hdn : s.detectedNote with
    | none =>
        unfold matchEffect
        rw [if_neg (by simp [hph])]
        simp only [hdn]
        exact hInv
    | some dn =>
      by_cases hidx : s.melodySequence.length ≤ s.currentNoteIndex
      · unfold matchEffect
        rw [if_neg (by simp [hph])]
        simp only [hdn]
        rw [if_pos hidx]
        exact hInv
      · by_cases hm : notesMatch (some dn)
            (s.melodySequence.getD s.currentNoteIndex ⟨"C", 0⟩) s.cents = true
        · rw [matchEffect_match_eq s dn hInv hph hdn (not_le.mp hidx) hm]
          obtain ⟨⟨hlt1, hlt2, hlt3⟩, ⟨hd1, hd2, hd3⟩, hshape⟩ := hInv
          refine ⟨⟨?_, ?_, ?_⟩, ⟨?_, ?_, ?_⟩, ?_⟩
          · intro x hx
            have hx' : s.nextId = x := by simpa using hx
            show x < s.nextId + 1
            omega
          · intro x hx
            have := hlt2 x hx
            show x < s.nextId + 1
            omega
          · intro x hx
            have := hlt3 x hx
            show x < s.nextId + 1
            omega
          · intro x y hx hy
            have hx' : s.nextId = x := by simpa using hx
            have := hlt2 y hy
            omega
          · intro x y hx hy
            have hx' : s.nextId = x := by simpa using hx
            have := hlt3 y hy
            omega
          · intro x y hx hy
            exact hd3 x y hx hy
          · refine Or.inr (Or.inl ⟨s.nextId, _, rfl, hph, rfl,
              rfl, rfl, rfl, rfl, rfl, rfl⟩)
        · have hm' : notesMatch (some dn)
              (s.melodySequence.getD s.currentNoteIndex ⟨"C", 0⟩) s.cents = false := by
            cases hb : notesMatch (some dn)
                (s.melodySequence.getD s.currentNoteIndex ⟨"C", 0⟩) s.cents
            · rfl
            · exact absurd hb hm
          obtain ⟨⟨hlt1, hlt2, hlt3⟩, ⟨hd1, hd2, hd3⟩, hshape⟩ := hInv
          unfold matchEffect
          rw [if_neg (by simp [hph])]
          simp only [hdn]
          rw [if_neg hidx, if_neg (by rw [hm']; decide)]
          cases hhr : s.noteHoldTimerRef with
          | none =>
              exact ⟨⟨hlt1, hlt2, hlt3⟩, ⟨hd1, hd2, hd3⟩, hshape⟩
          | some x =>
            refine ⟨⟨?_, ?_, ?_⟩, ⟨?_, ?_, ?_⟩, ?_⟩
            · intro y hy
              exact absurd hy (by simp)
            · exact hlt2
            · exact hlt3
            · intro y z hy hz
              exact absurd hy (by simp)
            · intro y z hy hz
              exact absurd hy (by simp)
            · exact hd3
            · rcases hshape with h0 | ⟨i, d0, hp, -, hhr2, -⟩ | ⟨i, b, hp, hph2, htr⟩
                | ⟨i, b, hp, hmem, -⟩
              · refine Or.inl ?_
                show clearTimer s.pending x = []
                rw [h0, clearTimer_nil]
              · refine Or.inl ?_
                show clearTimer s.pending x = []
                have hx : x = i := by
                  rw [hhr] at hhr2
                  exact Option.some.inj hhr2
                rw [hp, hx, clearTimer_singleton_self]
              · refine Or.inr (Or.inr (Or.inl ⟨i, b, ?_, hph2, htr⟩))
                show clearTimer s.pending x = _
                have hne : x ≠ i := hd1 x i hhr htr
                rw [hp, clearTimer_singleton_ne _ _ _ (Ne.symm hne)]
              · rw [hph] at hmem
                exact absurd hmem (by decide)

lemma inv_startGameCore (round : ℤ) (seq : List NoteO) (s : GMState)
    (hlt : RefsLt s) (hdist : RefsDistinct s) (hnil : s.pending = []) :
    Inv (startGameCore round seq s) := by
  obtain ⟨hlt1, hlt2, hlt3⟩ := hlt
  obtain ⟨hd1, hd2, hd3⟩ := hdist
  unfold startGameCore
  refine ⟨⟨?_, ?_, ?_⟩, ⟨?_, ?_, ?_⟩, ?_⟩
  · intro x hx
    have := hlt1 x hx
    show x < s.nextId + 1
    omega
  · intro x hx
    have := hlt2 x hx
    show x < s.nextId + 1
    omega
  · intro x hx
    have hx' : s.nextId = x := by simpa using hx
    show x < s.nextId + 1
    omega
  · intro x y hx hy
    exact hd1 x y hx hy
  · intro x y hx hy
    have hy' : s.nextId = y := by simpa using hy
    have := hlt1 x hx
    omega
  · intro x y hx hy
    have hy' : s.nextId = y := by simpa using hy
    have := hlt2 x hx
    omega
  · refine Or.inr (Or.inr (Or.inr ⟨s.nextId, s.isRecording, ?_, rfl, rfl⟩))
    show (⟨s.nextId, .memoryTick s.isRecording⟩ : Timer) :: s.pending = _
    rw [hnil]

lemma inv_resetGameFn (s : GMState) (hInv : Inv s) :
    Inv (resetGameFn s) ∧ (resetGameFn s).pending = []
      ∧ (resetGameFn s).gamePhase = .setup := by
  obtain ⟨⟨hlt1, hlt2, hlt3⟩, ⟨hd1, hd2, hd3⟩, hshape⟩ := hInv
  have hpend : clearRef (clearRef (clearRef
      (clearRef s.pending s.noteTimeoutTimerRef) s.memoryTimerRef)
      s.noteHoldTimerRef) (none : Option ℕ) = [] := by
    rw [clearRef_none]
    rcases hshape with h0 | ⟨i, d0, hp, -, hhr, -⟩ | ⟨i, b, hp, -, htr⟩
      | ⟨i, b, hp, -, hmr⟩
    · rw [h0, clearRef_nil, clearRef_nil, clearRef_nil]
    · rw [hp]
      have h1 : clearRef [(⟨i, .hold d0⟩ : Timer)] s.noteTimeoutTimerRef
          = [⟨i, .hold d0⟩] := by
        cases htr : s.noteTimeoutTimerRef with
        | none => rw [clearRef_none]
        | some y => exact clearRef_singleton_ne i y _ (hd1 i y hhr htr)
      have h2 : clearRef [(⟨i, .hold d0⟩ : Timer)] s.memoryTimerRef
          = [⟨i, .hold d0⟩] := by
        cases hmr : s.memoryTimerRef with
        | none => rw [clearRef_none]
        | some z => exact clearRef_singleton_ne i z _ (hd2 i z hhr hmr)
      rw [h1, h2, hhr, clearRef_singleton_self]
    · rw [hp, htr, clearRef_singleton_self, clearRef_nil, clearRef_nil]
    · rw [hp]
      have h1 : clearRef [(⟨i, .memoryTick b⟩ : Timer)] s.noteTimeoutTimerRef
          = [⟨i, .memoryTick b⟩] := by
        cases htr : s.noteTimeoutTimerRef with
        | none => rw [clearRef_none]
        | some y => exact clearRef_singleton_ne i y _ (hd3 y i htr hmr).symm
      rw [h1, hmr, clearRef_singleton_self, clearRef_nil]
  unfold resetGameFn
  rw [stopRecording_eq]
  refine ⟨⟨⟨?_, ?_, ?_⟩, ⟨?_, ?_, ?_⟩, ?_⟩, ?_, rfl⟩
  · intro x hx
    exact hlt1 x hx
  · intro x hx
    exact absurd hx (by simp)
  · intro x hx
    exact hlt3 x hx
  · intro x y hx hy
    exact absurd hy (by simp)
  · intro x y hx hy
    exact hd2 x y hx hy
  · intro x y hx hy
    exact absurd hx (by simp)
  · exact Or.inl hpend
  · exact hpend

lemma inv_startRecordingFn (b : Bool) (s : GMState)
    (hlt : RefsLt s) (hdist : RefsDistinct s) (hnil : s.pending = [])
    (hph : s.gamePhase = .recall) :
    Inv (startRecordingFn b s) := by
  obtain ⟨hlt1, hlt2, hlt3⟩ := hlt
  obtain ⟨hd1, hd2, hd3⟩ := hdist
  unfold startRecordingFn
  refine ⟨⟨?_, ?_, ?_⟩, ⟨?_, ?_, ?_⟩, ?_⟩
  · intro x hx
    have := hlt1 x hx
    show x < s.nextId + 1
    omega
  · intro x hx
    have hx' : s.nextId = x := by simpa using hx
    show x < s.nextId + 1
    omega
  · intro x hx
    have := hlt3 x hx
    show x < s.nextId + 1
    omega
  · intro x y hx hy
    have hy' : s.nextId = y := by simpa using hy
    have := hlt1 x hx
    omega
  · intro x y hx hy
    exact hd2 x y hx hy
  · intro x y hx hy
    have hx' : s.nextId = x := by simpa using hx
    have := hlt3 y hy
    omega
  · refine Or.inr (Or.inr (Or.inl ⟨s.nextId, b, ?_, hph, rfl⟩))
    show (⟨s.nextId, .noteTimeout s.currentNoteIndex b⟩ : Timer) :: s.pending = _
    rw [hnil]

theorem inv_stepEv (s : GMState) (e : GMEvent) (hInv : Inv s) :
    Inv (stepEv s e) := by
  cases e with
  | pressStart seq =>
      unfold stepEv
      dsimp only
      split
      case isTrue h =>
        have hnil : s.pending = [] :=
          pending_nil_of_phase s hInv (by rw [h.1]; decide) (by rw [h.1]; decide)
        exact inv_matchEffect _
          (inv_startGameCore s.currentRound seq s hInv.1 hInv.2.1 hnil)
      case isFalse h => exact hInv
  | pressNextRound seq =>
      unfold stepEv
      dsimp only
      split
      case isTrue h =>
        have hnil : s.pending = [] :=
          pending_nil_of_phase s hInv (by rw [h.1]; decide) (by rw [h.1]; decide)
        exact inv_matchEffect _
          (inv_startGameCore s.currentRound seq
            { s with currentRound := s.currentRound + 1, gamePhase := .setup }
            hInv.1 hInv.2.1 hnil)
      case isFalse h => exact hInv
  | pressStop =>
      unfold stepEv
      dsimp only
      exact inv_matchEffect _ (inv_resetGameFn s hInv).1
  | detect n c =>
      unfold stepEv
      dsimp only
      split
      case isTrue h =>
        apply inv_matchEffect
        obtain ⟨⟨hlt1, hlt2, hlt3⟩, ⟨hd1, hd2, hd3⟩, hshape⟩ := hInv
        refine ⟨⟨hlt1, hlt2, hlt3⟩, ⟨hd1, hd2, hd3⟩, ?_⟩
        rcases hshape with h0 | ⟨i, d0, hp, hph, hhr, hcap⟩ | ⟨i, b, hp, hph, htr⟩
          | ⟨i, b, hp, hph, hmr⟩
        · exact Or.inl h0
        · exact Or.inr (Or.inl ⟨i, d0, hp, hph, hhr, hcap⟩)
        · exact Or.inr (Or.inr (Or.inl ⟨i, b, hp, hph, htr⟩))
        · exact Or.inr (Or.inr (Or.inr ⟨i, b, hp, hph, hmr⟩))
      case isFalse h => exact hInv
  | fire x =>
      unfold stepEv
      dsimp only
      cases hfind : s.pending.find? (fun t => t.id == x) with
      | none => exact hInv
      | some t =>
        have htmem : t ∈ s.pending := List.mem_of_find?_eq_some hfind
        have htid : t.id = x := by
          have := List.find?_some hfind
          simpa using this
        obtain ⟨⟨hlt1, hlt2, hlt3⟩, ⟨hd1, hd2, hd3⟩, hshape⟩ := hInv
        rcases hshape with h0 | ⟨i, d0, hp, hph, hhr, hcap⟩ | ⟨i, b, hp, hph, htr⟩
          | ⟨i, b, hp, hph, hmr⟩
        · rw [h0] at htmem
          exact absurd htmem (List.not_mem_nil t)
        · -- hold timer fires
          rw [hp] at htmem
          have ht' : t = ⟨i, .hold d0⟩ := by simpa using htmem
          subst ht'
          have hxi : i = x := htid
          subst hxi
          have hpend : clearTimer s.pending i = [] := by
            rw [hp, clearTimer_singleton_self]
          apply inv_matchEffect
          obtain ⟨hc1, hc2, hc3, hc4, hc5, hc6⟩ := hcap
          unfold holdCallback
          dsimp only
          split
          case isTrue hlast =>
            rw [stopRecording_eq]
            split
            case isTrue hxp =>
              refine ⟨⟨hlt1, ?_, hlt3⟩, ⟨?_, hd2, ?_⟩, Or.inl ?_⟩
              · intro y hy
                exact absurd hy (by simp)
              · intro y z hy hz
                exact absurd hz (by simp)
              · intro y z hy hz
                exact absurd hy (by simp)
              · show clearRef (clearTimer s.pending i) s.noteTimeoutTimerRef = []
                rw [hpend, clearRef_nil]
            case isFalse hxp =>
              refine ⟨⟨hlt1, ?_, hlt3⟩, ⟨?_, hd2, ?_⟩, Or.inl ?_⟩
              · intro y hy
                exact absurd hy (by simp)
              · intro y z hy hz
                exact absurd hz (by simp)
              · intro y z hy hz
                exact absurd hy (by simp)
              · show clearRef (clearTimer s.pending i) s.noteTimeoutTimerRef = []
                rw [hpend, clearRef_nil]
          case isFalse hlast =>
            refine ⟨⟨?_, ?_, ?_⟩, ⟨?_, ?_, ?_⟩, ?_⟩
            · intro y hy
              have := hlt1 y hy
              show y < s.nextId + 1
              omega
            · intro y hy
              have hy' : s.nextId = y := by simpa using hy
              show y < s.nextId + 1
              omega
            · intro y hy
              have := hlt3 y hy
              show y < s.nextId + 1
              omega
            · intro y z hy hz
              have hz' : s.nextId = z := by simpa using hz
              have := hlt1 y hy
              omega
            · intro y z hy hz
              exact hd2 y z hy hz
            · intro y z hy hz
              have hy' : s.nextId = y := by simpa using hy
              have := hlt3 z hz
              omega
            · refine Or.inr (Or.inr (Or.inl ⟨s.nextId, d0.isRecording, ?_, hph,
                rfl⟩))
              show (⟨s.nextId,
                    .noteTimeout (d0.currentNoteIndex + 1) d0.isRecording⟩ : Timer)
                  :: clearTimer s.pending i = _
              rw [hpend]
        · -- per-step timeout fires
          rw [hp] at htmem
          have ht' : t = ⟨i, .noteTimeout s.currentNoteIndex b⟩ := by
            simpa using htmem
          subst ht'
          have hxi : i = x := htid
          subst hxi
          have hpend : clearTimer s.pending i = [] := by
            rw [hp, clearTimer_singleton_self]
          apply inv_matchEffect
          unfold timeoutCallback
          dsimp only
          rw [stopRecording_eq]
          refine ⟨⟨hlt1, ?_, hlt3⟩, ⟨?_, hd2, ?_⟩, Or.inl ?_⟩
          · intro y hy
            exact absurd hy (by simp)
          · intro y z hy hz
            exact absurd hz (by simp)
          · intro y z hy hz
            exact absurd hy (by simp)
          · show clearRef (clearTimer s.pending i) s.noteTimeoutTimerRef = []
            rw [hpend, clearRef_nil]
        · -- memorize interval tick fires
          rw [hp] at htmem
          have ht' : t = ⟨i, .memoryTick b⟩ := by simpa using htmem
          subst ht'
          apply inv_matchEffect
          unfold memoryTickCallback
          dsimp only
          split
          case isTrue htime =>
            have hpend : clearRef s.pending s.memoryTimerRef = [] := by
              rw [hp, hmr, clearRef_singleton_self]
            refine inv_startRecordingFn b _ ⟨hlt1, hlt2, hlt3⟩ ⟨hd1, hd2, hd3⟩
              ?_ rfl
            show clearRef s.pending s.memoryTimerRef = []
            exact hpend
          case isFalse htime =>
            refine ⟨⟨hlt1, hlt2, hlt3⟩, ⟨hd1, hd2, hd3⟩,
              Or.inr (Or.inr (Or.inr ⟨i, b, hp, hph, hmr⟩))⟩

theorem inv_reachable (s : GMState) (h : Reachable s) : Inv s := by
  induction h with
  | init =>
      refine ⟨⟨?_, ?_, ?_⟩, ⟨?_, ?_, ?_⟩, Or.inl rfl⟩
      · intro x hx
        exact absurd hx (by simp [initState])
      · intro x hx
        exact absurd hx (by simp [initState])
      · intro x hx
        exact absurd hx (by simp [initState])
      · intro x y hx hy
        exact absurd hx (by simp [initState])
      · intro x y hx hy
        exact absurd hx (by simp [initState])
      · intro x y hx hy
        exact absurd hx (by simp [initState])
  | step s e _ ih => exact inv_stepEv s e ih

lemma reachable_run (evs : List GMEvent) : Reachable (run initState evs) := by
  suffices h : ∀ s, Reachable s → Reachable (run s evs) from
    h initState Reachable.init
  induction evs with
  | nil => intro s hs; exact hs
  | cons e es ih =>
      intro s hs
      exact ih (stepEv s e) (Reachable.step s e hs)

lemma fire_not_pending_eq (s : GMState) (x : ℕ) (h : x ∉ pendingIds s) :
    stepEv s (.fire x) = s := by
  unfold stepEv
  dsimp only
  have hfind : s.pending.find? (fun t => t.id == x) = none := by
    rw [List.find?_eq_none]
    intro t ht hbeq
    apply h
    have hid : t.id = x := by simpa using hbeq
    rw [← hid]
    exact List.mem_map_of_mem Timer.id ht
  rw [hfind]

lemma matchEffect_none (s : GMState) (hdn : s.detectedNote = none) :
    matchEffect s = s := by
  unfold matchEffect
  split
  · rfl
  · simp only [hdn]

lemma inv_detectUpdate (s : GMState) (n : Option NoteO) (c : ℤ) (hInv : Inv s) :
    Inv { s with detectedNote := n, cents := c } := by
  obtain ⟨⟨hlt1, hlt2, hlt3⟩, ⟨hd1, hd2, hd3⟩, hshape⟩ := hInv
  refine ⟨⟨hlt1, hlt2, hlt3⟩, ⟨hd1, hd2, hd3⟩, ?_⟩
  rcases hshape with h0 | ⟨i, d0, hp, hph, hhr, hcap⟩ | ⟨i, b, hp, hph, htr⟩
    | ⟨i, b, hp, hph, hmr⟩
  · exact Or.inl h0
  · exact Or.inr (Or.inl ⟨i, d0, hp, hph, hhr, hcap⟩)
  · exact Or.inr (Or.inr (Or.inl ⟨i, b, hp, hph, htr⟩))
  · exact Or.inr (Or.inr (Or.inr ⟨i, b, hp, hph, hmr⟩))

/-! ## Claim theorems: the `GameMemory` match engine -/

/-- C1: stale timer safety.  In every reachable state, every pending hold or
per-step timeout timer belongs to the current step of a live (recall)
session — so as soon as a step completes, the session is reset, or capture
stops, no timer scheduled for the finished step remains pending — and
firing any timer id that is not pending leaves the state literally
unchanged (the fire is a guaranteed no-op, as in the JS runtime where a
cleared or consumed timer callback never runs). -/
theorem stale_timer_safety :
    ∀ s : GMState, Reachable s →
      (∀ t ∈ s.pending, Timer.isStepTimer t →
        Timer.stepOf t = s.currentNoteIndex ∧ s.gamePhase = .recall)
      ∧ (∀ x, x ∉ pendingIds s → stepEv s (.fire x) = s) := by
  intro s hreach
  obtain ⟨-, -, hshape⟩ := inv_reachable s hreach
  constructor
  · intro t ht hstep
    rcases hshape with h0 | ⟨i, d0, hp, hph, -, hcap⟩ | ⟨i, b, hp, hph, -⟩
      | ⟨i, b, hp, hph, -⟩
    · rw [h0] at ht
      exact absurd ht (List.not_mem_nil t)
    · rw [hp] at ht
      have ht' : t = ⟨i, .hold d0⟩ := by simpa using ht
      subst ht'
      exact ⟨hcap.2.2.1, hph⟩
    · rw [hp] at ht
      have ht' : t = ⟨i, .noteTimeout s.currentNoteIndex b⟩ := by simpa using ht
      subst ht'
      exact ⟨rfl, hph⟩
    · rw [hp] at ht
      have ht' : t = ⟨i, .memoryTick b⟩ := by simpa using ht
      subst ht'
      exact hstep.elim
  · intro x hx
    exact fire_not_pending_eq s x hx

/-- Witness for `stale_timer_safety`: firing a non-pending timer id in the
initial state changes nothing. -/
theorem stale_timer_safety_witness : stepEv initState (.fire 0) = initState :=
  (stale_timer_safety initState Reachable.init).2 0 (by decide)

lemma stepEv_detect_rec (s : GMState) (n : Option NoteO) (c : ℤ)
    (hrec : s.isRecording = true) :
    stepEv s (.detect n c) = matchEffect { s with detectedNote := n, cents := c } := by
  unfold stepEv
  dsimp only
  rw [if_pos hrec]

lemma stepEv_fire_hold (u : GMState) (N : ℕ) (d : HoldData)
    (hp : u.pending = [⟨N, .hold d⟩]) :
    stepEv u (.fire N) = matchEffect (holdCallback d { u with pending := [] }) := by
  unfold stepEv
  dsimp only
  rw [hp]
  rw [show List.find? (fun t => t.id == N) [(⟨N, .hold d⟩ : Timer)]
      = some ⟨N, .hold d⟩ from by simp [List.find?]]
  dsimp only
  rw [clearTimer_singleton_self]

lemma holdCallback_proj_adv (d : HoldData) (u : GMState)
    (hlast : ¬ (d.melody.length ≤ d.currentNoteIndex + 1)) :
    (holdCallback d u).gamePhase = u.gamePhase
    ∧ (holdCallback d u).currentNoteIndex = d.currentNoteIndex + 1
    ∧ (holdCallback d u).isRecording = u.isRecording
    ∧ (holdCallback d u).melodySequence = u.melodySequence := by
  unfold holdCallback
  dsimp only
  rw [if_neg hlast]
  exact ⟨rfl, rfl, rfl, rfl⟩

lemma holdCallback_final_phase (d : HoldData) (u : GMState)
    (hlast : d.melody.length ≤ d.currentNoteIndex + 1) :
    (holdCallback d u).gamePhase = .roundComplete := by
  unfold holdCallback
  dsimp only
  rw [if_pos hlast]
  split <;> rw [stopRecording_eq]

lemma solveFrom_correct : ∀ (fuel : ℕ) (s : GMState), Inv s →
    s.gamePhase = .recall → s.isRecording = true →
    s.currentNoteIndex + fuel = s.melodySequence.length →
    s.currentNoteIndex < s.melodySequence.length →
    (run s (solveFrom s fuel)).gamePhase = .roundComplete
    ∧ (solveFrom s fuel).length = 2 * fuel := by
  intro fuel
  induction fuel with
  | zero =>
      intro s _ _ _ hlen hidx
      omega
  | succ fuel ih =>
      intro s hInv hph hrec hlen hidx
      obtain ⟨target, hget⟩ : ∃ t, s.melodySequence.get? s.currentNoteIndex = some t := by
        rw [List.get?_eq_getElem?]
        exact ⟨s.melodySequence[s.currentNoteIndex], List.getElem?_eq_getElem hidx⟩
      have hgetD : s.melodySequence.getD s.currentNoteIndex ⟨"C", 0⟩ = target := by
        rw [List.getD_eq_getElem?_getD, ← List.get?_eq_getElem?, hget]
        rfl
      have hmatch : notesMatch (some target)
          (s.melodySequence.getD s.currentNoteIndex ⟨"C", 0⟩) 0 = true := by
        rw [hgetD]
        simp [notesMatch, PITCH_TOLERANCE]
      -- the matching detection schedules a fresh hold with id s.nextId
      have hInv1 : Inv (stepEv s (.detect (some target) 0)) :=
        inv_stepEv s _ hInv
      have hs1 : stepEv s (.detect (some target) 0) = { s with
          detectedNote := some target, cents := 0,
          pending := [⟨s.nextId, .hold ⟨target, s.playerSequence, s.score,
            s.currentNoteIndex, s.melodySequence, s.totalScore, s.xpAwarded,
            s.isRecording⟩⟩],
          noteHoldTimerRef := some s.nextId, nextId := s.nextId + 1 } := by
        rw [stepEv_detect_rec s (some target) 0 hrec]
        rw [matchEffect_match_eq _ target
          (inv_detectUpdate s (some target) 0 hInv) hph rfl hidx hmatch]
      -- firing the hold advances or completes
      have hs2 : stepEv (stepEv s (.detect (some target) 0)) (.fire s.nextId)
          = matchEffect (holdCallback
              ⟨target, s.playerSequence, s.score, s.currentNoteIndex,
                s.melodySequence, s.totalScore, s.xpAwarded, s.isRecording⟩
              { s with
                detectedNote := some target, cents := 0,
                pending := [], noteHoldTimerRef := some s.nextId,
                nextId := s.nextId + 1 }) := by
        rw [hs1]
        exact stepEv_fire_hold _ s.nextId _ rfl
      have hInv2 : Inv (stepEv (stepEv s (.detect (some target) 0)) (.fire s.nextId)) :=
        inv_stepEv _ _ hInv1
      have hrun : run s (solveFrom s (fuel + 1))
          = run (stepEv (stepEv s (.detect (some target) 0)) (.fire s.nextId))
              (solveFrom (stepEv (stepEv s (.detect (some target) 0)) (.fire s.nextId))
                fuel) := by
        rw [solveFrom, hget]
        rfl
      have hlenEq : (solveFrom s (fuel + 1)).length
          = 2 + (solveFrom (stepEv (stepEv s (.detect (some target) 0)) (.fire s.nextId))
              fuel).length := by
        rw [solveFrom, hget]
        simp only [List.length_cons]
        omega
      by_cases hfin : fuel = 0
      · subst hfin
        have hlast : s.melodySequence.length ≤ s.currentNoteIndex + 1 := by omega
        have hphase : (stepEv (stepEv s (.detect (some target) 0))
            (.fire s.nextId)).gamePhase = .roundComplete := by
          rw [hs2]
          rw [(matchEffect_proj _).1]
          exact holdCallback_final_phase _ _ hlast
        constructor
        · rw [hrun]
          rw [show solveFrom (stepEv (stepEv s (.detect (some target) 0))
              (.fire s.nextId)) 0 = [] from rfl]
          exact hphase
        · rw [hlenEq]
          rfl
      · have hlast : ¬ (s.melodySequence.length ≤ s.currentNoteIndex + 1) := by omega
        obtain ⟨hq1, hq2, hq3, hq4⟩ := holdCallback_proj_adv
          ⟨target, s.playerSequence, s.score, s.currentNoteIndex,
            s.melodySequence, s.totalScore, s.xpAwarded, s.isRecording⟩
          { s with
            detectedNote := some target, cents := 0,
            pending := [], noteHoldTimerRef := some s.nextId,
            nextId := s.nextId + 1 } hlast
        obtain ⟨hm1, hm2, hm3, hm4, -⟩ := matchEffect_proj (holdCallback
          ⟨target, s.playerSequence, s.score, s.currentNoteIndex,
            s.melodySequence, s.totalScore, s.xpAwarded, s.isRecording⟩
          { s with
            detectedNote := some target, cents := 0,
            pending := [], noteHoldTimerRef := some s.nextId,
            nextId := s.nextId + 1 })
        have hidx3 : (stepEv (stepEv s (.detect (some target) 0))
            (.fire s.nextId)).currentNoteIndex = s.currentNoteIndex + 1 := by
          rw [hs2, hm2, hq2]
        have hmel3 : (stepEv (stepEv s (.detect (some target) 0))
            (.fire s.nextId)).melodySequence = s.melodySequence := by
          rw [hs2, hm3, hq4]
        obtain ⟨hfin2, hlen2⟩ := ih
          (stepEv (stepEv s (.detect (some target) 0)) (.fire s.nextId))
          hInv2
          (by rw [hs2, hm1, hq1]; exact hph)
          (by rw [hs2, hm4, hq3]; exact hrec)
          (by rw [hidx3, hmel3]; omega)
          (by rw [hidx3, hmel3]; omega)
        constructor
        · rw [hrun]
          exact hfin2
        · rw [hlenEq, hlen2]
          omega

lemma stepEv_fire_timeout (u : GMState) (N : ℕ) (n : ℕ) (b : Bool)
    (hp : u.pending = [⟨N, .noteTimeout n b⟩]) :
    stepEv u (.fire N)
      = matchEffect (timeoutCallback b { u with pending := [] }) := by
  unfold stepEv
  dsimp only
  rw [hp]
  rw [show List.find? (fun t => t.id == N) [(⟨N, .noteTimeout n b⟩ : Timer)]
      = some ⟨N, .noteTimeout n b⟩ from by simp [List.find?]]
  dsimp only
  rw [clearTimer_singleton_self]

lemma timeoutCallback_proj (b : Bool) (u : GMState) :
    (timeoutCallback b u).gamePhase = .failed
    ∧ (timeoutCallback b u).isRecording = (!b && u.isRecording)
    ∧ (timeoutCallback b u).currentNoteIndex = u.currentNoteIndex := by
  unfold timeoutCallback
  rw [stopRecording_eq]
  exact ⟨rfl, rfl, rfl⟩

lemma memoryTickCallback_idx (b : Bool) (u : GMState) :
    (memoryTickCallback b u).currentNoteIndex = u.currentNoteIndex := by
  unfold memoryTickCallback startRecordingFn
  dsimp only
  split <;> rfl

/-- C3 (amended): first, a pending per-step timeout timer that fires in a
reachable state moves the session to the terminal failed phase, but
whether capture stops is governed by the stale `stopRecording` closure the
timeout captured when it was scheduled: `isRecording` becomes false only
if the captured flag was true, and otherwise stays what it is — in
particular the first step's timeout, scheduled through the memorize
countdown's `startRecording` (whose render had `isRecording = false`),
fails the session WITHOUT stopping the microphone (the witness exhibits
this).  Second, the per-step timeout timer is only active until the first
in-tolerance matching detection of the step: such a detection leaves no
timeout timer pending (only the fresh hold timer).  Third, termination on
correct input holds in the form the code supports: from any listening
state, one matching detection followed by the firing of the hold timer it
scheduled, repeated once per remaining step, reaches the terminal
round-complete phase in exactly 2 x (remaining steps) events. -/
theorem timeout_termination_amended :
    (∀ s : GMState, Reachable s → ∀ i n b,
      (⟨i, .noteTimeout n b⟩ : Timer) ∈ s.pending →
        (stepEv s (.fire i)).gamePhase = .failed
        ∧ (stepEv s (.fire i)).isRecording = (!b && s.isRecording))
    ∧ (∀ s : GMState, ∀ dn : NoteO, ∀ c : ℤ, Inv s → s.gamePhase = .recall →
        s.isRecording = true → s.currentNoteIndex < s.melodySequence.length →
        notesMatch (some dn) (s.melodySequence.getD s.currentNoteIndex ⟨"C", 0⟩) c
          = true →
        ∀ t ∈ (stepEv s (.detect (some dn) c)).pending,
          ∀ n b, t.kind ≠ .noteTimeout n b)
    ∧ (∀ s : GMState, Inv s → s.gamePhase = .recall → s.isRecording = true →
        ∀ fuel, s.currentNoteIndex + fuel = s.melodySequence.length →
        s.currentNoteIndex < s.melodySequence.length →
        (run s (solveFrom s fuel)).gamePhase = .roundComplete
        ∧ (solveFrom s fuel).length = 2 * fuel) := by
  refine ⟨?_, ?_, ?_⟩
  · intro s hreach i n b hmem
    obtain ⟨-, -, hshape⟩ := inv_reachable s hreach
    rcases hshape with h0 | ⟨i0, d0, hp, -, -, -⟩ | ⟨i0, b0, hp, -, -⟩
      | ⟨i0, b0, hp, -, -⟩
    · rw [h0] at hmem
      exact absurd hmem (List.not_mem_nil _)
    · rw [hp] at hmem
      have h := List.mem_singleton.mp hmem
      exact absurd (congrArg Timer.kind h) (by simp)
    · rw [hp] at hmem
      have h := List.mem_singleton.mp hmem
      have hii : i = i0 := congrArg Timer.id h
      subst hii
      have hk := congrArg Timer.kind h
      dsimp only at hk
      injection hk with hn hb
      subst hb
      rw [stepEv_fire_timeout s i s.currentNoteIndex b hp]
      obtain ⟨hq1, hq2, -⟩ := timeoutCallback_proj b
        { s with pending := ([] : List Timer) }
      obtain ⟨hm1, -, -, hm4, -⟩ := matchEffect_proj
        (timeoutCallback b { s with pending := ([] : List Timer) })
      exact ⟨by rw [hm1, hq1], by rw [hm4, hq2]⟩
    · rw [hp] at hmem
      have h := List.mem_singleton.mp hmem
      exact absurd (congrArg Timer.kind h) (by simp)
  · intro s dn c hInv hph hrec hidx hm t ht n b
    rw [stepEv_detect_rec s (some dn) c hrec,
      matchEffect_match_eq _ dn (inv_detectUpdate s (some dn) c hInv) hph rfl
        hidx hm] at ht
    have ht' := List.mem_singleton.mp ht
    rw [ht']
    simp
  · intro s hInv hph hrec fuel hlen hidx
    exact solveFrom_correct fuel s hInv hph hrec hlen hidx

/-- Witness for `timeout_termination_amended`: in the concrete 3-note
session whose memorize countdown has just expired, the pending first-step
timeout (scheduled through the countdown's `startRecording`, so its
`stopRecording` closure captured `isRecording = false`) fires: the session
fails, but capture is NOT stopped — `isRecording` is still `true`. -/
theorem timeout_termination_amended_witness :
    (stepEv (run initState [.pressStart [⟨"C", 4⟩, ⟨"D", 4⟩, ⟨"E", 4⟩], .fire 0,
        .fire 0, .fire 0, .fire 0, .fire 0]) (.fire 1)).gamePhase = .failed
    ∧ (stepEv (run initState [.pressStart [⟨"C", 4⟩, ⟨"D", 4⟩, ⟨"E", 4⟩], .fire 0,
        .fire 0, .fire 0, .fire 0, .fire 0]) (.fire 1)).isRecording = true := by
  have h := timeout_termination_amended.1
    (run initState [.pressStart [⟨"C", 4⟩, ⟨"D", 4⟩, ⟨"E", 4⟩], .fire 0,
      .fire 0, .fire 0, .fire 0, .fire 0])
    (reachable_run _) 1 0 false (by decide)
  refine ⟨h.1, ?_⟩
  rw [h.2]
  decide

/-- C3 counterexample: the claim says each listening step has an active
timeout timer until the step's hold completes.  But in the concrete game
reached by starting a 3-note round and letting the memorize countdown run
out, the first in-tolerance matching detection cancels the step's timeout
timer while the hold (500 ms) has not yet completed (score still 0, step
still 0): the only pending timer is the hold timer.  A following
mismatching detection then cancels the hold as well, leaving the session
listening with no pending timer at all — no timeout can ever fire. -/
theorem timeout_cleared_counterexample :
    (run initState [.pressStart [⟨"C", 4⟩, ⟨"D", 4⟩, ⟨"E", 4⟩], .fire 0, .fire 0,
        .fire 0, .fire 0, .fire 0, .detect (some ⟨"C", 4⟩) 0]).gamePhase = .recall
    ∧ (run initState [.pressStart [⟨"C", 4⟩, ⟨"D", 4⟩, ⟨"E", 4⟩], .fire 0, .fire 0,
        .fire 0, .fire 0, .fire 0, .detect (some ⟨"C", 4⟩) 0]).score = 0
    ∧ (run initState [.pressStart [⟨"C", 4⟩, ⟨"D", 4⟩, ⟨"E", 4⟩], .fire 0, .fire 0,
        .fire 0, .fire 0, .fire 0,
        .detect (some ⟨"C", 4⟩) 0]).currentNoteIndex = 0
    ∧ (run initState [.pressStart [⟨"C", 4⟩, ⟨"D", 4⟩, ⟨"E", 4⟩], .fire 0, .fire 0,
        .fire 0, .fire 0, .fire 0, .detect (some ⟨"C", 4⟩) 0]).pending
      = [⟨2, .hold ⟨⟨"C", 4⟩, [], 0, 0, [⟨"C", 4⟩, ⟨"D", 4⟩, ⟨"E", 4⟩], 0, false,
        true⟩⟩]
    ∧ (run initState [.pressStart [⟨"C", 4⟩, ⟨"D", 4⟩, ⟨"E", 4⟩], .fire 0, .fire 0,
        .fire 0, .fire 0, .fire 0, .detect (some ⟨"C", 4⟩) 0,
        .detect (some ⟨"D", 4⟩) 3]).pending = []
    ∧ (run initState [.pressStart [⟨"C", 4⟩, ⟨"D", 4⟩, ⟨"E", 4⟩], .fire 0, .fire 0,
        .fire 0, .fire 0, .fire 0, .detect (some ⟨"C", 4⟩) 0,
        .detect (some ⟨"D", 4⟩) 3]).gamePhase = .recall := by
  decide

/-- C2 (amended): while the session is listening with the step in range:
an in-tolerance matching detection cancels any in-progress hold timer and
the step's timeout timer and schedules a fresh full-duration hold timer
capturing the current state (the hold restarts rather than being kept
running), leaving the step index unchanged; a present but mismatching or
out-of-tolerance detection cancels the in-progress hold and leaves the
match state unchanged; a detection with no note (invalid) changes nothing
except the recorded detection — in particular it does NOT cancel a running
hold timer; and the step index only ever advances by the firing of a
pending hold timer. -/
theorem listening_acceptance_amended :
    ∀ s : GMState, Inv s → s.gamePhase = .recall → s.isRecording = true →
      s.currentNoteIndex < s.melodySequence.length →
      (∀ dn : NoteO, ∀ c : ℤ, notesMatch (some dn)
          (s.melodySequence.getD s.currentNoteIndex ⟨"C", 0⟩) c = true →
        stepEv s (.detect (some dn) c) = { s with
          detectedNote := some dn, cents := c,
          pending := [⟨s.nextId, .hold ⟨dn, s.playerSequence, s.score,
            s.currentNoteIndex, s.melodySequence, s.totalScore, s.xpAwarded,
            s.isRecording⟩⟩],
          noteHoldTimerRef := some s.nextId,
          nextId := s.nextId + 1 }
        ∧ ∀ y, s.noteHoldTimerRef = some y →
            y ∉ pendingIds (stepEv s (.detect (some dn) c)))
      ∧ (∀ dn : NoteO, ∀ c : ℤ, notesMatch (some dn)
          (s.melodySequence.getD s.currentNoteIndex ⟨"C", 0⟩) c = false →
          (∀ t ∈ (stepEv s (.detect (some dn) c)).pending, ∀ d, t.kind ≠ .hold d)
          ∧ (stepEv s (.detect (some dn) c)).currentNoteIndex = s.currentNoteIndex
          ∧ (stepEv s (.detect (some dn) c)).score = s.score
          ∧ (stepEv s (.detect (some dn) c)).playerSequence = s.playerSequence
          ∧ (stepEv s (.detect (some dn) c)).gamePhase = s.gamePhase)
      ∧ (∀ c : ℤ, stepEv s (.detect none c)
          = { s with detectedNote := none, cents := c })
      ∧ (∀ e : GMEvent, (stepEv s e).currentNoteIndex = s.currentNoteIndex + 1 →
          ∃ i d, e = .fire i ∧ (⟨i, .hold d⟩ : Timer) ∈ s.pending) := by
  intro s hInv hph hrec hidx
  refine ⟨?_, ?_, ?_, ?_⟩
  · intro dn c hm
    have heq : stepEv s (.detect (some dn) c) = { s with
        detectedNote := some dn, cents := c,
        pending := [⟨s.nextId, .hold ⟨dn, s.playerSequence, s.score,
          s.currentNoteIndex, s.melodySequence, s.totalScore, s.xpAwarded,
          s.isRecording⟩⟩],
        noteHoldTimerRef := some s.nextId,
        nextId := s.nextId + 1 } := by
      rw [stepEv_detect_rec s (some dn) c hrec,
        matchEffect_match_eq _ dn (inv_detectUpdate s (some dn) c hInv) hph rfl
          hidx hm]
    refine ⟨heq, ?_⟩
    intro y hy
    have hlt := hInv.1.1 y hy
    rw [heq]
    simp only [pendingIds, List.map, List.mem_singleton]
    omega
  · intro dn c hm
    obtain ⟨-, hm2, -, -, hm5, hm6, -⟩ := matchEffect_proj
      { s with detectedNote := some dn, cents := c }
    obtain ⟨hm1', -⟩ := matchEffect_proj { s with detectedNote := some dn, cents := c }
    rw [stepEv_detect_rec s (some dn) c hrec]
    exact ⟨matchEffect_mismatch_noHold _ dn
        (inv_detectUpdate s (some dn) c hInv) hph rfl hidx hm,
      hm2, hm6, hm5, hm1'⟩
  · intro c
    rw [stepEv_detect_rec s none c hrec, matchEffect_none _ rfl]
  · intro e hadv
    cases e with
    | pressStart seq =>
        unfold stepEv at hadv
        dsimp only at hadv
        split at hadv
        · obtain ⟨-, hm2', -⟩ := matchEffect_proj
            (startGameCore s.currentRound seq s)
          rw [hm2'] at hadv
          have h0 : (startGameCore s.currentRound seq s).currentNoteIndex = 0 := rfl
          omega
        · omega
    | pressNextRound seq =>
        unfold stepEv at hadv
        dsimp only at hadv
        split at hadv
        · obtain ⟨-, hm2', -⟩ := matchEffect_proj
            (startGameCore s.currentRound seq
              { s with currentRound := s.currentRound + 1, gamePhase := .setup })
          rw [hm2'] at hadv
          have h0 : (startGameCore s.currentRound seq
              { s with currentRound := s.currentRound + 1, gamePhase := .setup
              }).currentNoteIndex = 0 := rfl
          omega
        · omega
    | pressStop =>
        unfold stepEv at hadv
        dsimp only at hadv
        obtain ⟨-, hm2', -⟩ := matchEffect_proj (resetGameFn s)
        rw [hm2'] at hadv
        have h0 : (resetGameFn s).currentNoteIndex = 0 := by
          unfold resetGameFn
          rw [stopRecording_eq]
        omega
    | detect n c =>
        unfold stepEv at hadv
        dsimp only at hadv
        obtain ⟨-, hm2', -⟩ := matchEffect_proj
          { s with detectedNote := n, cents := c }
        have h0 : ({ s with detectedNote := n, cents := c
            } : GMState).currentNoteIndex = s.currentNoteIndex := rfl
        split at hadv
        · rw [hm2'] at hadv
          omega
        · omega
    | fire x =>
        unfold stepEv at hadv
        dsimp only at hadv
        generalize hfind : s.pending.find? (fun t => t.id == x) = res at hadv
        cases res with
        | none =>
            dsimp only at hadv
            omega
        | some t =>
          dsimp only at hadv
          have htmem : t ∈ s.pending := List.mem_of_find?_eq_some hfind
          have htid : t.id = x := by
            have := List.find?_some hfind
            simpa using this
          cases hk : t.kind with
          | hold d =>
              refine ⟨x, d, rfl, ?_⟩
              have ht' : t = ⟨x, .hold d⟩ := by
                rw [← htid, ← hk]
              rw [← ht']
              exact htmem
          | noteTimeout n b =>
              rw [hk] at hadv
              obtain ⟨-, hm2', -⟩ := matchEffect_proj
                (timeoutCallback b { s with pending := clearTimer s.pending x })
              rw [hm2', (timeoutCallback_proj _ _).2.2] at hadv
              have h0 : ({ s with pending := clearTimer s.pending x }
                  : GMState).currentNoteIndex = s.currentNoteIndex := rfl
              omega
          | memoryTick b =>
              rw [hk] at hadv
              obtain ⟨-, hm2', -⟩ := matchEffect_proj (memoryTickCallback b s)
              rw [hm2', memoryTickCallback_idx b s] at hadv
              omega

/-- Witness for `listening_acceptance_amended`: in a concrete recall state
with a running hold timer, an invalid detection (no note) only records the
detection. -/
theorem listening_acceptance_amended_witness :
    stepEv (run initState [.pressStart [⟨"C", 4⟩, ⟨"D", 4⟩, ⟨"E", 4⟩], .fire 0,
        .fire 0, .fire 0, .fire 0, .fire 0, .detect (some ⟨"C", 4⟩) 0])
      (.detect none 5)
    = { run initState [.pressStart [⟨"C", 4⟩, ⟨"D", 4⟩, ⟨"E", 4⟩], .fire 0,
        .fire 0, .fire 0, .fire 0, .fire 0, .detect (some ⟨"C", 4⟩) 0] with
        detectedNote := none, cents := 5 } :=
  ((listening_acceptance_amended
    (run initState [.pressStart [⟨"C", 4⟩, ⟨"D", 4⟩, ⟨"E", 4⟩], .fire 0,
      .fire 0, .fire 0, .fire 0, .fire 0, .detect (some ⟨"C", 4⟩) 0])
    (inv_reachable _ (reachable_run _))
    (by decide) (by decide) (by decide)).2.2.1) 5

/-- C2 counterexample: the claim says a matching detection starts a hold
timer if one is not already running and subsequent matching detections keep
that same timer running, and that any invalid or mismatching detection
cancels the in-progress hold.  In the concrete game below, the first
matching detection schedules hold timer id 2; a second matching detection
does not keep timer 2 running: timer 2 is cancelled and a fresh hold timer
id 3 is scheduled in its place; and a subsequent invalid detection (no
note) leaves the running hold timer 3 pending instead of cancelling it. -/
theorem hold_restart_counterexample :
    (run initState [.pressStart [⟨"C", 4⟩, ⟨"D", 4⟩, ⟨"E", 4⟩], .fire 0, .fire 0,
        .fire 0, .fire 0, .fire 0, .detect (some ⟨"C", 4⟩) 0]).noteHoldTimerRef
      = some 2
    ∧ pendingIds (run initState [.pressStart [⟨"C", 4⟩, ⟨"D", 4⟩, ⟨"E", 4⟩],
        .fire 0, .fire 0, .fire 0, .fire 0, .fire 0,
        .detect (some ⟨"C", 4⟩) 0]) = [2]
    ∧ pendingIds (run initState [.pressStart [⟨"C", 4⟩, ⟨"D", 4⟩, ⟨"E", 4⟩],
        .fire 0, .fire 0, .fire 0, .fire 0, .fire 0, .detect (some ⟨"C", 4⟩) 0,
        .detect (some ⟨"C", 4⟩) 0]) = [3]
    ∧ pendingIds (run initState [.pressStart [⟨"C", 4⟩, ⟨"D", 4⟩, ⟨"E", 4⟩],
        .fire 0, .fire 0, .fire 0, .fire 0, .fire 0, .detect (some ⟨"C", 4⟩) 0,
        .detect (some ⟨"C", 4⟩) 0, .detect none 5]) = [3] := by
  decide

/-! ## Claim theorems: sample window, MIDI conversion, tuning classifier -/

lemma appendAudioChunk_length (w chunk : List ℚ) (hw : w.length = BUF_SIZE)
    (hc : chunk.length ≤ BUF_SIZE) :
    (appendAudioChunk w chunk).length = BUF_SIZE := by
  simp only [appendAudioChunk, List.length_append, List.length_drop]
  omega

lemma foldl_appendAudioChunk_length (chunks : List (List ℚ)) :
    ∀ w : List ℚ, w.length = BUF_SIZE → (∀ c ∈ chunks, c.length ≤ BUF_SIZE) →
    (chunks.foldl appendAudioChunk w).length = BUF_SIZE := by
  induction chunks with
  | nil => intro w hw _; simpa using hw
  | cons c cs ih =>
    intro w hw hc
    simp only [List.foldl_cons]
    exact ih _ (appendAudioChunk_length w c hw (hc c (by simp)))
      (fun c' hc' => hc c' (by simp [hc']))

/-- C4 counterexample: the claim says appending a chunk of length ≥ capacity
leaves the window equal to exactly the last `capacity` samples of the chunk
(so the window length stays 9000 after every append).  But for a chunk one
sample longer than the capacity, `prevBuffer.slice(len)` is empty and the
whole chunk becomes the window, so the window length grows to 9001. -/
theorem sample_window_overflow_counterexample :
    (appendAudioChunk initialAudioBuffer (List.replicate (BUF_SIZE + 1) 1)).length
      ≠ BUF_SIZE ∧
    appendAudioChunk initialAudioBuffer (List.replicate (BUF_SIZE + 1) 1)
      = List.replicate (BUF_SIZE + 1) 1 := by
  have hlen : initialAudioBuffer.length
      ≤ (List.replicate (BUF_SIZE + 1) (1 : ℚ)).length := by
    simp only [initialAudioBuffer, List.length_replicate]
    omega
  constructor
  · simp only [appendAudioChunk, List.length_append, List.length_drop,
      initialAudioBuffer, List.length_replicate]
    omega
  · unfold appendAudioChunk
    rw [List.drop_eq_nil_of_le hlen]
    simp

/-- C4 (amended): the audio buffer starts as 9000 zeros; appending a chunk of
length at most the capacity preserves the capacity-9000 length and yields
`window.drop chunk.length ++ chunk` (oldest samples evicted FIFO); a chunk at
least as long as the window replaces the window by the entire chunk (for a
chunk of length exactly 9000 this is the last 9000 samples of the chunk, for
a longer chunk the window temporarily exceeds the capacity); the length
invariant holds for every sequence of appends whose chunks are each at most
the capacity. -/
theorem sample_window_amended :
    (initialAudioBuffer.length = BUF_SIZE
      ∧ initialAudioBuffer = List.replicate BUF_SIZE 0)
    ∧ (∀ w chunk : List ℚ, w.length = BUF_SIZE → chunk.length ≤ BUF_SIZE →
        (appendAudioChunk w chunk).length = BUF_SIZE
          ∧ appendAudioChunk w chunk = w.drop chunk.length ++ chunk)
    ∧ (∀ w chunk : List ℚ, w.length ≤ chunk.length →
        appendAudioChunk w chunk = chunk)
    ∧ (∀ chunks : List (List ℚ), (∀ c ∈ chunks, c.length ≤ BUF_SIZE) →
        (chunks.foldl appendAudioChunk initialAudioBuffer).length = BUF_SIZE) := by
  refine ⟨⟨by simp [initialAudioBuffer], rfl⟩, ?_, ?_, ?_⟩
  · intro w chunk hw hc
    exact ⟨appendAudioChunk_length w chunk hw hc, rfl⟩
  · intro w chunk h
    unfold appendAudioChunk
    rw [List.drop_eq_nil_of_le h]
    simp
  · intro chunks hc
    exact foldl_appendAudioChunk_length chunks initialAudioBuffer
      (by simp [initialAudioBuffer]) hc

/-- Witness for `sample_window_amended` at a concrete window and chunk. -/
theorem sample_window_amended_witness :
    (appendAudioChunk initialAudioBuffer (List.replicate 10 1)).length = BUF_SIZE :=
  (sample_window_amended.2.1 initialAudioBuffer (List.replicate 10 1)
    (by simp [initialAudioBuffer]) (by simp [BUF_SIZE])).1

/-- C6 counterexample: the claim says the MIDI conversions are total and
mutually inverse for every integer midi and octave.  But
`noteToMIDI("B", -2) = -1`, and `MIDIToNote(-1)` computes the JS remainder
`-1 % 12 = -1`, so `NOTE_NAMES[-1]` is `undefined`: no defined note name,
and the round trip fails. -/
theorem midi_negative_counterexample :
    noteToMIDI "B" (-2) = -1 ∧ (MIDIToNote (-1)).name = none := by decide

/-- C6 (amended): restricted to non-negative midi numbers (equivalently
octaves ≥ -1), the conversions are exact mutually inverse integer functions:
`MIDIToNote` yields octave `⌊midi/12⌋ - 1` and pitch class `midi mod 12`
with a defined name, `noteToMIDI` recovers the midi number, and conversely
`MIDIToNote (noteToMIDI n o) = (n, o)` for every note name and octave ≥ -1. -/
theorem midi_round_trip_amended :
    (∀ midi : ℤ, 0 ≤ midi →
      (MIDIToNote midi).octave = midi.fdiv 12 - 1
      ∧ jsRem midi 12 = midi % 12
      ∧ ∃ h : (midi % 12).toNat < NOTE_NAMES.length,
          (MIDIToNote midi).name = some (NOTE_NAMES.get ⟨(midi % 12).toNat, h⟩)
          ∧ noteToMIDI (NOTE_NAMES.get ⟨(midi % 12).toNat, h⟩)
              ((MIDIToNote midi).octave) = midi)
    ∧ (∀ j : Fin NOTE_NAMES.length, ∀ o : ℤ, -1 ≤ o →
        MIDIToNote (noteToMIDI (NOTE_NAMES.get j) o)
          = ⟨some (NOTE_NAMES.get j), o⟩) := by
  have hemod : ∀ midi : ℤ, 0 ≤ midi % 12 ∧ midi % 12 < 12 := fun midi =>
    ⟨Int.emod_nonneg midi (by norm_num), Int.emod_lt_of_pos midi (by norm_num)⟩
  have hlen : NOTE_NAMES.length = 12 := by decide
  constructor
  · intro midi hmidi
    obtain ⟨hm0, hm12⟩ := hemod midi
    have hrem : jsRem midi 12 = midi % 12 :=
      jsRem_nonneg_eq_emod midi 12 hmidi (by norm_num)
    have hcast : ((midi % 12).toNat : ℤ) = midi % 12 := Int.toNat_of_nonneg hm0
    have hlt : (midi % 12).toNat < NOTE_NAMES.length := by omega
    refine ⟨rfl, hrem, hlt, ?_, ?_⟩
    · show jsArrayGet NOTE_NAMES (jsRem midi 12) = _
      rw [hrem]
      conv_lhs => rw [← hcast]
      exact jsArrayGet_of_lt NOTE_NAMES _ hlt
    · show (midi.fdiv 12 - 1 + 1) * 12 + jsIndexOf NOTE_NAMES _ = midi
      rw [jsIndexOf_get ⟨(midi % 12).toNat, hlt⟩]
      rw [Int.fdiv_eq_ediv midi (by norm_num)]
      have := Int.ediv_add_emod midi 12
      push_cast [hcast]
      omega
  · intro j o ho
    have hj : (j : ℕ) < 12 := by omega
    have hmidi : noteToMIDI (NOTE_NAMES.get j) o = (o + 1) * 12 + (j : ℤ) := by
      unfold noteToMIDI
      rw [jsIndexOf_get j]
    have h0 : 0 ≤ (o + 1) * 12 + (j : ℤ) := by
      have : 0 ≤ (o + 1) * 12 := by omega
      omega
    have hr : jsRem ((o + 1) * 12 + (j : ℤ)) 12 = (j : ℤ) := by
      rw [jsRem_nonneg_eq_emod _ 12 h0 (by norm_num)]
      omega
    have hf : ((o + 1) * 12 + (j : ℤ)).fdiv 12 - 1 = o := by
      rw [Int.fdiv_eq_ediv _ (by norm_num)]
      have h1 : ((o + 1) * 12 + (j : ℤ)) / 12 = o + 1 := by
        have := Int.ediv_add_emod ((o + 1) * 12 + (j : ℤ)) 12
        have h2 : ((o + 1) * 12 + (j : ℤ)) % 12 = (j : ℤ) := by omega
        omega
      omega
    rw [hmidi]
    unfold MIDIToNote
    rw [hr, hf]
    simp only [MIDINoteResult.mk.injEq]
    exact ⟨jsArrayGet_of_lt NOTE_NAMES (j : ℕ) j.isLt, trivial⟩

/-- Witness for `midi_round_trip_amended` at midi 61 (C#4) and at octave 3. -/
theorem midi_round_trip_amended_witness :
    MIDIToNote (noteToMIDI (NOTE_NAMES.get ⟨1, by decide⟩) 3)
      = ⟨some (NOTE_NAMES.get ⟨1, by decide⟩), 3⟩ :=
  midi_round_trip_amended.2 ⟨1, by decide⟩ 3 (by norm_num)

/-- C8: the tuning classifier is a total function of the cents value with
display tolerance 10: in tune iff `|cents| ≤ 10`, sharp iff `cents > 10`,
flat iff `cents < -10`; in particular classify 12 = sharp,
classify (-11) = flat, classify 3 = in tune. -/
theorem tuning_classification :
    (∀ c : ℤ,
      (((getTuningStatus c).status = "in-tune") ↔ |c| ≤ 10)
      ∧ (((getTuningStatus c).status = "sharp") ↔ 10 < c)
      ∧ (((getTuningStatus c).status = "flat") ↔ c < -10))
    ∧ (getTuningStatus 12).status = "sharp"
    ∧ (getTuningStatus (-11)).status = "flat"
    ∧ (getTuningStatus 3).status = "in-tune" := by
  refine ⟨fun c => ?_, by decide, by decide, by decide⟩
  have habs : |c| ≤ 10 ↔ -10 ≤ c ∧ c ≤ 10 := abs_le
  simp only [getTuningStatus]
  split_ifs with ha hb
  · exact ⟨iff_of_true rfl ha,
      iff_of_false (by decide) (by rw [habs] at ha; omega),
      iff_of_false (by decide) (by rw [habs] at ha; omega)⟩
  · exact ⟨iff_of_false (by decide) ha, iff_of_true rfl hb,
      iff_of_false (by decide) (by omega)⟩
  · rw [habs] at ha
    exact ⟨iff_of_false (by decide) (by rw [habs]; omega),
      iff_of_false (by decide) hb, iff_of_true rfl (by omega)⟩

/-! ## Claim theorems: note/frequency conversions -/

lemma jsArrayGet_eq_some (l : List String) (i : ℤ) (h0 : 0 ≤ i)
    (hlt : i.toNat < l.length) :
    jsArrayGet l i = some (l.get ⟨i.toNat, hlt⟩) := by
  unfold jsArrayGet
  rw [dif_pos ⟨h0, hlt⟩]

lemma semitonesFromA4_rpow (k : ℤ) :
    semitonesFromA4 (440 * (2 : ℝ) ^ ((k : ℝ) / 12)) = (k : ℝ) := by
  unfold semitonesFromA4
  rw [mul_div_cancel_left₀ _ (by norm_num : (440 : ℝ) ≠ 0)]
  rw [Real.logb_rpow (by norm_num) (by norm_num)]
  field_simp

lemma round_intCast_add_nine (k : ℤ) : round ((k : ℝ) + 9) = k + 9 := by
  rw [show ((k : ℝ) + 9) = ((k + 9 : ℤ) : ℝ) by push_cast; ring, round_intCast]

lemma getFreqFromNote_pos (note : NoteO) : 0 < getFreqFromNote note := by
  unfold getFreqFromNote
  positivity

/-- C5: the note/frequency round trip.  For every note name (given by its
pitch-class index) and every integer octave, `getNoteFromFreq` recovers the
name from `getFreqFromNote`, and the octave-resolved variant of
`GameMemory.tsx` also recovers the octave. -/
theorem note_freq_round_trip :
    ∀ j : Fin NOTE_NAMES.length, ∀ o : ℤ,
      getNoteFromFreq (getFreqFromNote ⟨NOTE_NAMES.get j, o⟩)
        = some ⟨NOTE_NAMES.get j⟩
      ∧ getNoteFromFreqOct (getFreqFromNote ⟨NOTE_NAMES.get j, o⟩)
        = some ⟨NOTE_NAMES.get j, o⟩ := by
  intro j o
  have hj12 : ((j : ℕ) : ℤ) < 12 ∧ 0 ≤ ((j : ℕ) : ℤ) := by
    have := j.isLt
    have hlen : NOTE_NAMES.length = 12 := by decide
    omega
  have hidx : jsIndexOf NOTE_NAMES (NOTE_NAMES.get j) = ((j : ℕ) : ℤ) :=
    jsIndexOf_get j
  have hA : jsIndexOf NOTE_NAMES "A" = 9 := by decide
  set k : ℤ := (o - 4) * 12 + (((j : ℕ) : ℤ) - 9) with hk
  have hfreq : getFreqFromNote ⟨NOTE_NAMES.get j, o⟩
      = 440 * (2 : ℝ) ^ ((k : ℝ) / 12) := by
    unfold getFreqFromNote
    rw [hidx, hA]
  have hpos : ¬ getFreqFromNote ⟨NOTE_NAMES.get j, o⟩ ≤ 0 :=
    not_le.2 (getFreqFromNote_pos _)
  have hsemi : round (semitonesFromA4 (getFreqFromNote ⟨NOTE_NAMES.get j, o⟩) + 9)
      = k + 9 := by
    rw [hfreq, semitonesFromA4_rpow, round_intCast_add_nine]
  have hshape : k + 9 = 12 * (o - 4) + ((j : ℕ) : ℤ) := by rw [hk]; ring
  have hnik : jsNoteIndex (k + 9) = ((j : ℕ) : ℤ) := by
    rw [hshape]
    exact jsNoteIndex_of_shape (o - 4) _ hj12.2 hj12.1
  have htoNat : (((j : ℕ) : ℤ)).toNat = (j : ℕ) := Int.toNat_ofNat _
  have hget : jsArrayGet NOTE_NAMES ((j : ℕ) : ℤ) = some (NOTE_NAMES.get j) := by
    rw [jsArrayGet_eq_some NOTE_NAMES _ hj12.2 (by rw [htoNat]; exact j.isLt)]
    exact congrArg some (congrArg NOTE_NAMES.get (Fin.ext htoNat))
  have hoct : (k + 9 + 48).fdiv 12 = o := by
    rw [Int.fdiv_eq_ediv _ (by norm_num)]
    have h1 : k + 9 + 48 = 12 * o + ((j : ℕ) : ℤ) := by rw [hk]; ring
    rw [h1]
    have h2 := Int.ediv_add_emod (12 * o + ((j : ℕ) : ℤ)) 12
    have h3 : (12 * o + ((j : ℕ) : ℤ)) % 12 = ((j : ℕ) : ℤ) := by omega
    omega
  constructor
  · unfold getNoteFromFreq
    rw [if_neg hpos]
    simp only [hsemi, hnik, hget]
  · unfold getNoteFromFreqOct
    rw [if_neg hpos]
    simp only [hsemi, hnik, hget, hoct]

/-- C7: non-positive frequency degradation: for every frequency ≤ 0,
`getNoteFromFreq` returns `undefined` and `getNoteCents` returns 0; both
are total functions of a real argument, so no numeric input can make them
throw. -/
theorem nonpositive_freq_degradation :
    ∀ f : ℝ, f ≤ 0 → getNoteFromFreq f = none ∧ getNoteCents f = 0 := by
  intro f hf
  constructor
  · unfold getNoteFromFreq
    rw [if_pos hf]
  · unfold getNoteCents
    rw [if_pos hf]

/-- Witness for `nonpositive_freq_degradation` at frequency 0. -/
theorem nonpositive_freq_degradation_witness :
    getNoteFromFreq 0 = none ∧ getNoteCents 0 = 0 :=
  nonpositive_freq_degradation 0 le_rfl

lemma getNoteFromFreq_isSome (f : ℝ) (hf : 0 < f) :
    getNoteFromFreq f
      = some ⟨NOTE_NAMES.get ⟨(jsNoteIndex (round (semitonesFromA4 f + 9))).toNat,
          by obtain ⟨h0, h12⟩ := jsNoteIndex_range (round (semitonesFromA4 f + 9));
             have hlen : NOTE_NAMES.length = 12 := by decide
             omega⟩⟩ := by
  obtain ⟨h0, h12⟩ := jsNoteIndex_range (round (semitonesFromA4 f + 9))
  simp only [getNoteFromFreq, if_neg (not_le.2 hf)]
  rw [jsArrayGet_eq_some NOTE_NAMES _ h0 (by
    have hlen : NOTE_NAMES.length = 12 := by decide
    omega)]

lemma getNoteCents_pos_eq (f : ℝ) (hf : 0 < f) :
    getNoteCents f
      = round (1200 * Real.logb 2
          (f / (440 * (2 : ℝ) ^ (((round (semitonesFromA4 f) : ℤ) : ℝ) / 12)))) := by
  unfold getNoteCents
  rw [if_neg (not_le.2 hf), getNoteFromFreq_isSome f hf]

/-- C9 (implicit): for every real frequency, `getNoteCents` returns an
integer in the closed interval [-50, 50]: 0 for non-positive input, and
otherwise the rounded deviation from the nearest rounded semitone, whose
magnitude is at most half a semitone. -/
theorem cents_bounded : ∀ f : ℝ, |getNoteCents f| ≤ 50 := by
  intro f
  by_cases hf : f ≤ 0
  · unfold getNoteCents
    rw [if_pos hf]
    simp
  · have hf' : 0 < f := not_le.mp hf
    rw [getNoteCents_pos_eq f hf']
    set x : ℝ := semitonesFromA4 f with hxdef
    set r : ℤ := round x with hrdef
    have h440 : (440 : ℝ) ≠ 0 := by norm_num
    have hpow : (0 : ℝ) < (2 : ℝ) ^ ((r : ℝ) / 12) :=
      Real.rpow_pos_of_pos (by norm_num) _
    have hne : (440 * (2 : ℝ) ^ ((r : ℝ) / 12)) ≠ 0 := by positivity
    have hlog : Real.logb 2 (f / (440 * (2 : ℝ) ^ ((r : ℝ) / 12)))
        = x / 12 - (r : ℝ) / 12 := by
      rw [Real.logb_div (ne_of_gt hf') hne,
        Real.logb_mul h440 (ne_of_gt hpow),
        Real.logb_rpow (by norm_num) (by norm_num)]
      have hx12 : x = 12 * (Real.logb 2 f - Real.logb 2 440) := by
        rw [hxdef]
        unfold semitonesFromA4
        rw [Real.logb_div (ne_of_gt hf') h440]
      rw [hx12]
      ring
    rw [hlog]
    have key : 1200 * (x / 12 - (r : ℝ) / 12) = 100 * (x - (r : ℝ)) := by ring
    rw [key]
    have hbound : |x - (r : ℝ)| ≤ 1 / 2 := by
      rw [hrdef]
      exact abs_sub_round x
    obtain ⟨hb1, hb2⟩ := abs_le.mp hbound
    have hup : round (100 * (x - (r : ℝ))) ≤ 50 := by
      rw [round_eq]
      calc ⌊100 * (x - (r : ℝ)) + 1 / 2⌋ ≤ ⌊(50.5 : ℝ)⌋ :=
            Int.floor_mono (by linarith)
        _ = 50 := by norm_num
    have hlow : -50 ≤ round (100 * (x - (r : ℝ))) := by
      rw [round_eq]
      calc (-50 : ℤ) = ⌊(-49.5 : ℝ)⌋ := by norm_num
        _ ≤ ⌊100 * (x - (r : ℝ)) + 1 / 2⌋ := Int.floor_mono (by linarith)
    exact abs_le.mpr ⟨hlow, hup⟩

/-! ## Claim theorem: octave-insensitive matching in `GamePitch` -/

/-- C10 (implicit): in the pitch game a detection is accepted iff the
detected note name equals the current target's name and `|cents| ≤ 20`; the
target's octave is never consulted (`gpNotesMatch` is invariant under any
change of the target octave), so a correct pitch class played in any octave
advances the step.  On acceptance the score increments and the game advances
or completes; on rejection only the recorded detection changes. -/
lemma gpMatchEffect_accept (s : GPState) (dn : GPNote)
    (hplay : s.gameState = .playing) (hdn : s.detectedNote = some dn)
    (hidx : s.currentNoteIndex < s.targetNotes.length)
    (hm : (gpNotesMatch (some dn)
        (some (s.targetNotes.getD s.currentNoteIndex ⟨"C", 0⟩))
        && decide (|s.cents| ≤ 20)) = true) :
    (gpMatchEffect s).score = s.score + 1
    ∧ ((gpMatchEffect s).currentNoteIndex = s.currentNoteIndex + 1
        ∨ (gpMatchEffect s).gameState = .completed) := by
  have hle : ¬ (s.targetNotes.length ≤ s.currentNoteIndex) := not_le.2 hidx
  unfold gpMatchEffect
  simp only [hplay, hdn, ne_eq, not_true_eq_false, if_false, hle, hm, if_true]
  by_cases hlast : s.targetNotes.length ≤ s.currentNoteIndex + 1
  · rw [if_pos hlast]
    unfold gpStopRecording
    constructor
    · split <;> split <;> rfl
    · right
      split <;> split <;> rfl
  · rw [if_neg hlast]
    exact ⟨rfl, Or.inl rfl⟩

lemma gpMatchEffect_reject (s : GPState) (dn : GPNote)
    (hdn : s.detectedNote = some dn)
    (hm : (gpNotesMatch (some dn)
        (some (s.targetNotes.getD s.currentNoteIndex ⟨"C", 0⟩))
        && decide (|s.cents| ≤ 20)) = false) :
    gpMatchEffect s = s := by
  unfold gpMatchEffect
  split
  · rfl
  · simp only [hdn, hm]
    split
    · rfl
    · simp

/-- C10 (implicit) main theorem, see doc comment restated: acceptance in
`GamePitch` is exactly name equality plus `|cents| ≤ 20`, and the target
octave is never consulted. -/
theorem pitch_game_octave_insensitive :
    ∀ (s : GPState) (dn : GPNote) (c : ℤ),
      s.gameState = .playing → s.isRecording = true →
      s.currentNoteIndex < s.targetNotes.length →
      (((gpDetect s (some dn) c).score = s.score + 1)
        ↔ (dn.name = (s.targetNotes.getD s.currentNoteIndex ⟨"C", 0⟩).name
            ∧ |c| ≤ 20))
      ∧ ((dn.name = (s.targetNotes.getD s.currentNoteIndex ⟨"C", 0⟩).name
            ∧ |c| ≤ 20) →
          ((gpDetect s (some dn) c).currentNoteIndex = s.currentNoteIndex + 1
            ∨ (gpDetect s (some dn) c).gameState = .completed))
      ∧ ((dn.name ≠ (s.targetNotes.getD s.currentNoteIndex ⟨"C", 0⟩).name
            ∨ ¬ |c| ≤ 20) →
          gpDetect s (some dn) c = { s with detectedNote := some dn, cents := c })
      ∧ (∀ t : NoteO, ∀ o : ℤ,
          gpNotesMatch (some dn) (some ⟨t.name, o⟩)
            = gpNotesMatch (some dn) (some t)) := by
  intro s dn c hplay hrec hidx
  have hoct : ∀ t : NoteO, ∀ o : ℤ,
      gpNotesMatch (some dn) (some ⟨t.name, o⟩) = gpNotesMatch (some dn) (some t) :=
    fun t o => rfl
  have hunfold : gpDetect s (some dn) c
      = gpMatchEffect { s with detectedNote := some dn, cents := c } := by
    unfold gpDetect
    rw [if_pos hrec]
  by_cases hacc : dn.name = (s.targetNotes.getD s.currentNoteIndex ⟨"C", 0⟩).name
      ∧ |c| ≤ 20
  · have hm : (gpNotesMatch (some dn)
        (some (s.targetNotes.getD s.currentNoteIndex ⟨"C", 0⟩))
        && decide (|c| ≤ 20)) = true := by
      simp [gpNotesMatch, hacc.1, hacc.2]
    obtain ⟨hsc, hadv⟩ := gpMatchEffect_accept
      { s with detectedNote := some dn, cents := c } dn hplay rfl hidx hm
    rw [← hunfold] at hsc hadv
    refine ⟨⟨fun _ => hacc, fun _ => hsc⟩, fun _ => hadv, ?_, hoct⟩
    intro hrej
    rcases hrej with hrej | hrej
    · exact absurd hacc.1 hrej
    · exact absurd hacc.2 hrej
  · have hm : (gpNotesMatch (some dn)
        (some (s.targetNotes.getD s.currentNoteIndex ⟨"C", 0⟩))
        && decide (|c| ≤ 20)) = false := by
      rcases not_and_or.mp hacc with h | h
      · have hb : (dn.name
            == (s.targetNotes.getD s.currentNoteIndex ⟨"C", 0⟩).name) = false :=
          beq_eq_false_iff_ne.mpr h
        simp only [gpNotesMatch, hb, Bool.false_and]
      · have hb : decide (|c| ≤ 20) = false := decide_eq_false h
        simp only [gpNotesMatch, hb, Bool.and_false]
    have heq : gpDetect s (some dn) c
        = { s with detectedNote := some dn, cents := c } :=
      hunfold.trans (gpMatchEffect_reject _ dn rfl hm)
    refine ⟨?_, fun h => absurd h hacc, fun _ => heq, hoct⟩
    rw [heq]
    constructor
    · intro hsc
      exfalso
      have hsc' : s.score = s.score + 1 := hsc
      omega
    · intro h
      exact absurd h hacc

/-- Witness for `pitch_game_octave_insensitive`: a concrete playing state,
a matching detection in a different octave than the target. -/
theorem pitch_game_octave_insensitive_witness :
    (gpDetect ⟨true, .playing, [⟨"C", 4⟩, ⟨"D", 4⟩], 0, 0, [false, false],
        false, none, 0⟩ (some ⟨"C"⟩) 3).score = 0 + 1 :=
  ((pitch_game_octave_insensitive ⟨true, .playing, [⟨"C", 4⟩, ⟨"D", 4⟩], 0, 0,
      [false, false], false, none, 0⟩ ⟨"C"⟩ 3 rfl rfl (by decide)).1).mpr
    ⟨rfl, by decide⟩

end TuneGG
